import Mathlib

/-!
Verification of the grci HDL compiler/simulator (src/src/grci.c) against its
natural-language specification.

The simulator of grci.c operates on a flat graph of primitive nodes
(`struct grci_node`): constants, NAND gates, D flip-flops and RAM64K output
nodes.  Pointers of the C code are modelled as natural-number node indices;
the mutable per-node fields (`visited`, `cached_state`, `as.constant`,
`as.dff.last_state` / `as.ram64Kout.last_state` — the two last-state fields
occupy the same union slot and are modelled as one field) become function
components of an explicit simulator state that is threaded through the
evaluators.  RAM backing memory (`char *data`, 65536 bytes) is a byte
function per RAM block.  The 16-bit RAM word read
`*((int*)&ram->data[addr])` of the C code is modelled little-endian
(bit i of the word is bit (i % 8) of byte addr + i / 8), matching the
platforms the program runs on; the C code reads data[addr + 1] even for
addr = 65535, and the model mirrors this by reading the (total) byte
function at index 65536.

The C evaluators grci_eval_dff / grci_eval_node terminate because every
recursive call happens after the current node's visited flag is set, so the
recursion depth is bounded by the number of nodes; the Lean translation
makes this explicit with a fuel parameter, and grci_step_module's calls pass
fuel node_count + 1, which is always sufficient for graphs produced by
elaboration (every node on a call path is distinct).
-/

namespace Grci

/-- Node kinds of `enum grci_node_type` together with the per-kind static
pointers of the `as` union: a NAND holds its two input nodes, a DFF its
input node, a RAM64K output node its RAM block. -/
inductive GNodeKind where
  | const : GNodeKind
  | nand (a b : Nat) : GNodeKind
  | dff (input : Nat) : GNodeKind
  | ramout (ram : Nat) : GNodeKind
deriving DecidableEq

/-- The static part of an elaborated simulator (`struct grci_simulator` plus
the per-RAM port wiring of `struct grci_ram64k`): node kinds, the DFF
reference list `dff_nodes`, the shared clock node, and for each RAM block
the nodes feeding its 16 data inputs, load and 16 address slots and the
indices of its 16 owned output nodes. -/
structure GGraph where
  kind : Nat → GNodeKind
  nodeCount : Nat
  dffList : Nat → Nat
  dffCount : Nat
  clock : Nat
  ramInput : Nat → Nat → Nat
  ramLoad : Nat → Nat
  ramAddr : Nat → Nat → Nat
  ramOutput : Nat → Nat → Nat

/-- The mutable simulator state: per-node `visited`, `cached_state`,
`as.constant` (value, meaningful on constant nodes), the last-state field of
DFF and RAM64K-out nodes, per-RAM byte memory, and the per-part submodule
state buffers (`struct grci_submodule::states`). -/
structure GSt where
  value : Nat → Bool
  visited : Nat → Bool
  cached : Nat → Bool
  last : Nat → Bool
  ram : Nat → Nat → Nat
  sub : Nat → Nat → Bool

/-- The loop over i = 0..15 inside grci_eval_dff's RAM64K case
(grci.c:1693-1699): per iteration, evaluate data input i (accumulating the
two data bytes `input1` and `input2` via `|= bit << (i)` resp.
`<< (i - 8)`), then evaluate address bit i (accumulating `addr`).  `ev` is
the recursive evaluator (`grci_eval_dff` at the enclosing fuel, with
root = false).  Returns (input1, input2, addr, state). -/
def ramPortsEval (g : GGraph) (ev : Nat → GSt → Bool × GSt) (r : Nat) (st : GSt) :
    Nat × Nat × Nat × GSt :=
  (List.range 16).foldl
    (fun (acc : Nat × Nat × Nat × GSt) i =>
      let pi := ev (g.ramInput r i) acc.2.2.2
      let bi : Nat := if pi.1 then 1 else 0
      let in1 := if i < 8 then acc.1 ||| (bi <<< i) else acc.1
      let in2 := if i < 8 then acc.2.1 else acc.2.1 ||| (bi <<< (i - 8))
      let pa := ev (g.ramAddr r i) pi.2
      let ba : Nat := if pa.1 then 1 else 0
      (in1, in2, acc.2.2.1 ||| (ba <<< i), pa.2))
    (0, 0, 0, st)

/-- The loop over i = 0..15 inside grci_eval_node's RAM64K case
(grci.c:1747-1750): evaluate only the 16 address bits (each via
`grci_eval_dff`, as the C does), accumulating `addr`. -/
def ramAddrEval (g : GGraph) (ev : Nat → GSt → Bool × GSt) (r : Nat) (st : GSt) :
    Nat × GSt :=
  (List.range 16).foldl
    (fun (acc : Nat × GSt) i =>
      let pa := ev (g.ramAddr r i) acc.2
      let ba : Nat := if pa.1 then 1 else 0
      (acc.1 ||| (ba <<< i), pa.2))
    (0, st)

/-- The distribution loop shared by both evaluators' RAM64K cases
(grci.c:1706-1709 and 1752-1755): mark each of the RAM's 16 output nodes
visited and write bit i of the 16-bit word read from memory (`w i`) into
output node i's cache. -/
def ramDistrib (g : GGraph) (r : Nat) (w : Nat → Bool) (s : GSt) : GSt :=
  (List.range 16).foldl
    (fun (s : GSt) i =>
      { s with visited := Function.update s.visited (g.ramOutput r i) true,
               cached := Function.update s.cached (g.ramOutput r i) (w i) })
    s

/-- The RAM64K case of `grci_eval_dff` (grci.c:1687-1711), entered with the
node already marked visited (state `st1`): evaluate load, then the 16 data
inputs and 16 address bits; if load is high store the two data bytes at the
assembled address; then distribute the 16-bit word at that address
(little-endian: bit i is bit i % 8 of byte addr + i / 8, the C reading an
int at `&ram->data[addr]`) into the RAM's 16 output nodes, and return the
current node's own cache. -/
def evalDffRamCore (g : GGraph) (r n : Nat) (load : Bool)
    (acc : Nat × Nat × Nat × GSt) : Bool × GSt :=
  let addr := acc.2.2.1
  let data0 := acc.2.2.2.ram r
  let data1 := if load then
      Function.update (Function.update data0 addr acc.1) (addr + 1) acc.2.1
    else data0
  let stw : GSt := { acc.2.2.2 with ram := Function.update acc.2.2.2.ram r data1 }
  let stf : GSt := ramDistrib g r
    (fun i => Nat.testBit (data1 (addr + i / 8)) (i % 8)) stw
  (stf.cached n, stf)

/-- See `evalDffRamCore`: the load evaluation and port evaluation, followed
by the store/read/distribute steps. -/
def evalDffRam (g : GGraph) (ev : Nat → GSt → Bool × GSt) (r n : Nat) (st1 : GSt) :
    Bool × GSt :=
  let pl := ev (g.ramLoad r) st1
  evalDffRamCore g r n pl.1 (ramPortsEval g ev r pl.2)

/-- The RAM64K case of `grci_eval_node` (grci.c:1745-1756), entered with the
node already marked visited: evaluate only the 16 address bits and
distribute the word read at that address; no store happens here. -/
def evalNodeRamCore (g : GGraph) (r n : Nat) (acc : Nat × GSt) : Bool × GSt :=
  let data0 := acc.2.ram r
  let stf : GSt := ramDistrib g r
    (fun i => Nat.testBit (data0 (acc.1 + i / 8)) (i % 8)) acc.2
  (stf.cached n, stf)

/-- See `evalNodeRamCore`: address evaluation followed by the
read/distribute step. -/
def evalNodeRam (g : GGraph) (ev : Nat → GSt → Bool × GSt) (r n : Nat) (st1 : GSt) :
    Bool × GSt :=
  evalNodeRamCore g r n (ramAddrEval g ev r st1)

/-- Translation of `grci_eval_dff` (grci.c:1660), the evaluator used for the
rising-edge DFF pass.  A visited DFF returns `last_state`, any other visited
node its `cached_state`; an unvisited node is marked visited and then
evaluated by kind; a non-root DFF returns its `cached_state` without
recursing; a RAM64K output node evaluates load, the 16 data inputs and the
16 address bits (in that interleaved order), stores the two data bytes at
the assembled address when load is high, then distributes the 16-bit word at
that address into the caches of the RAM's 16 output nodes. -/
def evalDff (g : GGraph) : Nat → Bool → Nat → GSt → Bool × GSt
  | 0, _, _, st => (false, st)
  | fuel+1, root, n, st =>
    if st.visited n then
      let v := match g.kind n with
        | .dff _ => st.last n
        | _ => st.cached n
      (v, st)
    else
      let st1 : GSt := { st with visited := Function.update st.visited n true }
      match g.kind n with
      | .const =>
        let st2 : GSt := { st1 with cached := Function.update st1.cached n (st1.value n) }
        (st2.cached n, st2)
      | .nand a b =>
        let pa := evalDff g fuel false a st1
        let pb := evalDff g fuel false b pa.2
        let v := !(pa.1 && pb.1)
        let st2 : GSt := { pb.2 with cached := Function.update pb.2.cached n v }
        (v, st2)
      | .dff i =>
        if root then
          let pi := evalDff g fuel false i st1
          let st2 : GSt := { pi.2 with cached := Function.update pi.2.cached n pi.1 }
          (pi.1, st2)
        else
          (st1.cached n, st1)
      | .ramout r => evalDffRam g (evalDff g fuel false) r n st1

/-- Translation of `grci_eval_node` (grci.c:1720), the combinational
evaluator used for the output pass.  It differs from `evalDff` in the DFF
case (an unvisited DFF just returns its cached state, never recursing) and
in the RAM64K case (only the 16 address bits are evaluated — via
`grci_eval_dff`, as in the C — and the word is read without any store). -/
def evalNode (g : GGraph) : Nat → Nat → GSt → Bool × GSt
  | 0, _, st => (false, st)
  | fuel+1, n, st =>
    if st.visited n then
      let v := match g.kind n with
        | .dff _ => st.last n
        | _ => st.cached n
      (v, st)
    else
      let st1 : GSt := { st with visited := Function.update st.visited n true }
      match g.kind n with
      | .const =>
        let st2 : GSt := { st1 with cached := Function.update st1.cached n (st1.value n) }
        (st2.cached n, st2)
      | .nand a b =>
        let pa := evalNode g fuel a st1
        let pb := evalNode g fuel b pa.2
        let v := !(pa.1 && pb.1)
        let st2 : GSt := { pb.2 with cached := Function.update pb.2.cached n v }
        (v, st2)
      | .dff _ => (st1.cached n, st1)
      | .ramout r => evalNodeRam g (evalDff g fuel false) r n st1

/-- The per-module-instance data used by `grci_step_module`
(`struct grci_module_instance` together with the `inputs`/`outputs` arrays of
`struct grci_module`): the constant nodes backing the module inputs, the
driver nodes of the module outputs, and per part whether it has an instance
name (`part_names[i].ptr != NULL`), whether its description is the Ram64K
built-in (`grci_string_matches(&parts[i]->name, "Ram64K", 6)`), and its
`dff_off_len` range into the DFF list. -/
structure GModule where
  inputCount : Nat
  inputNodes : Nat → Nat
  outputCount : Nat
  outputNodes : Nat → Nat
  partCount : Nat
  partNamed : Nat → Bool
  partIsRam : Nat → Bool
  dffOff : Nat → Nat
  dffLen : Nat → Nat

/-- Translation of the RAM64K buffer-load loop of `grci_step_module`
(grci.c:2223-2230): a running byte `c` accumulates
`c |= states[i] << (i % 8)` and is written to `data[i / 8]` (then reset)
whenever `i % 8 == 7`.  The recursion counts down the remaining loop
iterations; `i` is the current loop index. -/
def ramLoadAux (states : Nat → Bool) : Nat → Nat → Nat → (Nat → Nat) → (Nat → Nat)
  | 0, _, _, data => data
  | steps+1, i, c, data =>
    let c2 := c ||| ((if states i then 1 else 0) <<< (i % 8))
    if i % 8 == 7 then ramLoadAux states steps (i+1) 0 (Function.update data (i / 8) c2)
    else ramLoadAux states steps (i+1) c2 data

/-- The full RAM64K buffer-load loop: 65536*8 iterations from index 0 with
accumulator 0 (GRCI_RAM64K_STATE_COUNT = 65536 * 8). -/
def ramLoadBytes (states : Nat → Bool) (data : Nat → Nat) : Nat → Nat :=
  ramLoadAux states (65536 * 8) 0 0 data

/-- Translation of the RAM64K snapshot loop of `grci_step_module`
(grci.c:2286-2289): `states[i] = (data[i / 8] >> (i % 8)) & 1` for every
i < 65536*8 (indices beyond the loop bound keep the old buffer contents). -/
def ramSnapshotStates (data : Nat → Nat) (old : Nat → Bool) : Nat → Bool :=
  fun i => if i < 65536 * 8 then ((data (i / 8) >>> (i % 8)) &&& 1) == 1 else old i

/-- Phase 1 of `grci_step_module` (grci.c:2207-2210): write the
caller-supplied input bits into the constant nodes backing the module
inputs (`m->sim->module.inputs[i]->as.constant = m->inputs[i]`). -/
def publishInputs (md : GModule) (st : GSt) (inp : Nat → Bool) : GSt :=
  (List.range md.inputCount).foldl
    (fun st i => { st with value := Function.update st.value (md.inputNodes i) (inp i) }) st

/-- Phase 2 of `grci_step_module` (grci.c:2212-2240): for each named part,
copy its external state buffer into the simulator — into RAM bytes for a
Ram64K part (the RAM block is reached through the part's first DFF-list
node, as in the C), otherwise into both `last_state` and `cached_state` of
each DFF node in the part's `dff_off_len` range. -/
def loadSubStates (g : GGraph) (md : GModule) (st : GSt) : GSt :=
  (List.range md.partCount).foldl
    (fun st i =>
      if md.partNamed i then
        if md.partIsRam i then
          match g.kind (g.dffList (md.dffOff i)) with
          | .ramout r =>
            { st with ram := Function.update st.ram r (ramLoadBytes (st.sub i) (st.ram r)) }
          | _ => st
        else
          (List.range (md.dffLen i)).foldl
            (fun st j =>
              let d := g.dffList (md.dffOff i + j)
              { st with last := Function.update st.last d (st.sub i j),
                        cached := Function.update st.cached d (st.sub i j) }) st
      else st) st

/-- Phase 3 of `grci_step_module` (grci.c:2244): flip the shared clock
node's constant value. -/
def toggleClock (g : GGraph) (st : GSt) : GSt :=
  { st with value := Function.update st.value g.clock (!st.value g.clock) }

/-- Phase 4 of `grci_step_module` (grci.c:2247-2249): the loop clearing the
visited flag of every node of the node array (indices below `node_count`). -/
def clearAllVisited (g : GGraph) (st : GSt) : GSt :=
  { st with visited := fun n => if n < g.nodeCount then false else st.visited n }

/-- The loop at grci.c:2257-2260, run after each DFF sub-pass: clear the
visited flag of every node whose type is not GRCI_NT_DFF (so RAM64K output
nodes are cleared too; only plain DFF flags are retained). -/
def clearNonDffVisited (g : GGraph) (st : GSt) : GSt :=
  { st with visited := fun n =>
      if n < g.nodeCount then
        match g.kind n with
        | .dff _ => st.visited n
        | _ => false
      else st.visited n }

/-- One iteration of the rising-edge DFF loop of `grci_step_module`
(grci.c:2253-2261): clear the k-th DFF-list node's visited flag, evaluate it
as root with `grci_eval_dff`, then clear all non-DFF visited flags. -/
def rootStep (g : GGraph) (k : Nat) (st : GSt) : GSt :=
  let d := g.dffList k
  let st1 : GSt := { st with visited := Function.update st.visited d false }
  clearNonDffVisited g (evalDff g (g.nodeCount + 1) true d st1).2

/-- The whole rising-edge DFF pass: the loop over `dff_nodes`. -/
def dffPass (g : GGraph) (st : GSt) : GSt :=
  (List.range g.dffCount).foldl (fun st k => rootStep g k st) st

/-- The commit loop of `grci_step_module` (grci.c:2264-2266): copy every
DFF-list node's cached state into its last state. -/
def commitDffs (g : GGraph) (st : GSt) : GSt :=
  (List.range g.dffCount).foldl
    (fun st k =>
      let d := g.dffList k
      { st with last := Function.update st.last d (st.cached d) }) st

/-- The output pass of `grci_step_module` (grci.c:2270-2273): evaluate each
module output driver with `grci_eval_node` and collect the bits. -/
def evalOutputs (g : GGraph) (md : GModule) (st : GSt) : (Nat → Bool) × GSt :=
  (List.range md.outputCount).foldl
    (fun (acc : (Nat → Bool) × GSt) k =>
      let p := evalNode g (g.nodeCount + 1) (md.outputNodes k) acc.2
      (Function.update acc.1 k p.1, p.2))
    ((fun _ => false : Nat → Bool), st)

/-- The snapshot loop of `grci_step_module` (grci.c:2276-2297): for each
named part, copy its state back into its external buffer — RAM bytes
bit-unpacked for a Ram64K part, otherwise the `last_state` of each DFF node
in the part's range. -/
def snapshotSubStates (g : GGraph) (md : GModule) (st : GSt) : GSt :=
  (List.range md.partCount).foldl
    (fun st i =>
      if md.partNamed i then
        if md.partIsRam i then
          match g.kind (g.dffList (md.dffOff i)) with
          | .ramout r =>
            { st with sub := Function.update st.sub i (ramSnapshotStates (st.ram r) (st.sub i)) }
          | _ => st
        else
          (List.range (md.dffLen i)).foldl
            (fun st j =>
              let d := g.dffList (md.dffOff i + j)
              let sub2 := Function.update st.sub i (Function.update (st.sub i) j (st.last d))
              { st with sub := sub2 }) st
      else st) st

/-- Phases 1-4 of `grci_step_module`: publish inputs, load submodule
buffers, toggle the clock, clear all visited flags.  The state this
produces is the state whose `last` components are each DFF's value from
before this step's commit. -/
def preparePhase (g : GGraph) (md : GModule) (st : GSt) (inp : Nat → Bool) : GSt :=
  clearAllVisited g (toggleClock g (loadSubStates g md (publishInputs md st inp)))

/-- Translation of `grci_step_module` (grci.c:2206-2300).  Returns the new
clock level (read from the final state, as the C reads
`sim->clock->as.constant` at the end), the output bit vector, and the new
state. -/
def stepModule (g : GGraph) (md : GModule) (st : GSt) (inp : Nat → Bool) :
    Bool × (Nat → Bool) × GSt :=
  let st1 := preparePhase g md st inp
  let st2 := if st1.value g.clock then commitDffs g (dffPass g st1) else st1
  let po := evalOutputs g md st2
  let st3 := snapshotSubStates g md po.2
  (st3.value g.clock, po.1, st3)

/-- The initial constant value of the shared clock node,
`grci_constant_new(sim, 1)` in `grci_simulator_init` (grci.c:2019): the
clock starts high so that the first step is a low half-cycle. -/
def simulatorInitClock : Bool := true

/-- The state sequence of repeated `grci_step_module` calls on one module
instance: `runStates n` is the state after n steps, the (n+1)-th call using
the input vector `inps n`. -/
def runStates (g : GGraph) (md : GModule) (inps : Nat → Nat → Bool) (st : GSt) : Nat → GSt
  | 0 => st
  | n+1 => (stepModule g md (runStates g md inps st n) (inps n)).2.2

/-- The clock level returned by the (n+1)-th `grci_step_module` call. -/
def runLevel (g : GGraph) (md : GModule) (inps : Nat → Nat → Bool) (st : GSt) (n : Nat) : Bool :=
  (stepModule g md (runStates g md inps st n) (inps n)).1

/-- Reading a named submodule's state buffer (the caller dereferencing the
`states` pointer returned by `grci_submodule`). -/
def readSub (st : GSt) (i : Nat) : Nat → Bool := st.sub i

/-- Writing a bit vector into a named submodule's state buffer between
steps (the caller storing through the `states` pointer). -/
def writeSub (st : GSt) (i : Nat) (f : Nat → Bool) : GSt :=
  { st with sub := Function.update st.sub i f }

/-!  Frame lemmas: which state fields the evaluators and phases leave
untouched.  `GSt.lvs` bundles the fields never written by either evaluator
(`last`, `value`, `sub`). -/

/-- The (last, value, sub) fields of a state, bundled. -/
def GSt.lvs (st : GSt) : (Nat → Bool) × (Nat → Bool) × (Nat → Nat → Bool) :=
  (st.last, st.value, st.sub)

theorem foldl_proj_eq {α β γ : Type} (f : β → α → β) (p : β → γ)
    (h : ∀ b a, p (f b a) = p b) :
    ∀ (l : List α) (b : β), p (List.foldl f b l) = p b := by
  intro l
  induction l with
  | nil => intro b; rfl
  | cons a l ih => intro b; rw [List.foldl_cons, ih, h]

/-- Any state projection untouched by the per-item evaluator is untouched by
the RAM port-evaluation loop. -/
theorem ramPortsEval_proj {γ : Type} (g : GGraph) (ev : Nat → GSt → Bool × GSt)
    (r : Nat) (st : GSt) (p : GSt → γ) (hev : ∀ n st, p (ev n st).2 = p st) :
    p (ramPortsEval g ev r st).2.2.2 = p st := by
  exact foldl_proj_eq _ (fun acc : Nat × Nat × Nat × GSt => p acc.2.2.2)
    (fun acc i => (hev _ _).trans (hev _ _)) _ _

/-- Any state projection untouched by the per-item evaluator is untouched by
the RAM address-evaluation loop. -/
theorem ramAddrEval_proj {γ : Type} (g : GGraph) (ev : Nat → GSt → Bool × GSt)
    (r : Nat) (st : GSt) (p : GSt → γ) (hev : ∀ n st, p (ev n st).2 = p st) :
    p (ramAddrEval g ev r st).2 = p st := by
  exact foldl_proj_eq _ (fun acc : Nat × GSt => p acc.2) (fun acc i => hev _ _) _ _

/-- The store/read/distribute step writes only visited flags, caches and
RAM memory, so `last`, `value` and `sub` are untouched (the distribution
fold over the 16 concrete indices computes away definitionally). -/
theorem evalDffRamCore_lvs (g : GGraph) (r n : Nat) (load : Bool)
    (acc : Nat × Nat × Nat × GSt) :
    (evalDffRamCore g r n load acc).2.lvs = acc.2.2.2.lvs := rfl

/-- The DFF-pass RAM64K evaluation preserves `last`, `value` and `sub` as
long as its inner evaluator does. -/
theorem evalDffRam_lvs (g : GGraph) (ev : Nat → GSt → Bool × GSt) (r n : Nat)
    (st1 : GSt) (hev : ∀ m st, (ev m st).2.lvs = st.lvs) :
    (evalDffRam g ev r n st1).2.lvs = st1.lvs := by
  unfold evalDffRam
  exact (evalDffRamCore_lvs _ _ _ _ _).trans
    ((ramPortsEval_proj _ _ _ _ GSt.lvs hev).trans (hev _ _))

/-- The read/distribute step of the output pass writes only visited flags
and caches. -/
theorem evalNodeRamCore_lvs (g : GGraph) (r n : Nat) (acc : Nat × GSt) :
    (evalNodeRamCore g r n acc).2.lvs = acc.2.lvs := rfl

/-- The output-pass RAM64K evaluation likewise preserves `last`, `value`
and `sub`. -/
theorem evalNodeRam_lvs (g : GGraph) (ev : Nat → GSt → Bool × GSt) (r n : Nat)
    (st1 : GSt) (hev : ∀ m st, (ev m st).2.lvs = st.lvs) :
    (evalNodeRam g ev r n st1).2.lvs = st1.lvs := by
  unfold evalNodeRam
  exact (evalNodeRamCore_lvs _ _ _ _).trans (ramAddrEval_proj _ _ _ _ GSt.lvs hev)

/-- `grci_eval_dff` never writes a constant's value, a DFF's `last_state`,
or a submodule buffer. -/
theorem evalDff_lvs (g : GGraph) :
    ∀ (fuel : Nat) (root : Bool) (n : Nat) (st : GSt),
      (evalDff g fuel root n st).2.lvs = st.lvs := by
  intro fuel
  induction fuel with
  | zero => intro root n st; rfl
  | succ fuel ih =>
    intro root n st
    rw [evalDff]
    split
    · rfl
    · split
      · rfl
      · exact (ih _ _ _).trans (ih _ _ _)
      · split
        · exact ih _ _ _
        · rfl
      · exact (evalDffRam_lvs _ _ _ _ _ (fun m st => ih false m st)).trans rfl

/-- `grci_eval_node` never writes a constant's value, a DFF's `last_state`,
or a submodule buffer (its RAM address bits are evaluated with
`grci_eval_dff`, which also leaves these untouched). -/
theorem evalNode_lvs (g : GGraph) :
    ∀ (fuel : Nat) (n : Nat) (st : GSt),
      (evalNode g fuel n st).2.lvs = st.lvs := by
  intro fuel
  induction fuel with
  | zero => intro n st; rfl
  | succ fuel ih =>
    intro n st
    rw [evalNode]
    split
    · rfl
    · split
      · rfl
      · exact (ih _ _).trans (ih _ _)
      · rfl
      · exact (evalNodeRam_lvs _ _ _ _ _ (fun m st => evalDff_lvs g fuel false m st)).trans rfl

theorem foldl_proj_eq_mem {α β γ : Type} (f : β → α → β) (p : β → γ) :
    ∀ (l : List α), (∀ b a, a ∈ l → p (f b a) = p b) →
      ∀ (b : β), p (List.foldl f b l) = p b := by
  intro l
  induction l with
  | nil => intro _ b; rfl
  | cons a l ih =>
    intro h b
    rw [List.foldl_cons, ih (fun b a ha => h b a (List.mem_cons_of_mem _ ha)),
      h b a (List.mem_cons_self a l)]

/-- The fields of a state other than the constant values: publishing module
inputs touches none of them. -/
def GSt.novalue (st : GSt) :
    (Nat → Bool) × (Nat → Bool) × (Nat → Bool) × (Nat → Nat → Nat) × (Nat → Nat → Bool) :=
  (st.visited, st.cached, st.last, st.ram, st.sub)

/-- The fields untouched by the submodule-buffer load phase. -/
def GSt.vvs (st : GSt) : (Nat → Bool) × (Nat → Bool) × (Nat → Nat → Bool) :=
  (st.value, st.visited, st.sub)

/-- The fields untouched by the snapshot phase (everything except the
buffers). -/
def GSt.nosub (st : GSt) :
    (Nat → Bool) × (Nat → Bool) × (Nat → Bool) × (Nat → Bool) × (Nat → Nat → Nat) :=
  (st.value, st.visited, st.cached, st.last, st.ram)

/-- The fields untouched by the DFF commit loop (everything except
`last`). -/
def GSt.nolast (st : GSt) :
    (Nat → Bool) × (Nat → Bool) × (Nat → Bool) × (Nat → Nat → Nat) × (Nat → Nat → Bool) :=
  (st.value, st.visited, st.cached, st.ram, st.sub)

theorem publishInputs_novalue (md : GModule) (st : GSt) (inp : Nat → Bool) :
    (publishInputs md st inp).novalue = st.novalue := by
  unfold publishInputs
  apply foldl_proj_eq
  intro b a
  rfl

/-- Publishing the inputs leaves the value of any node that is not an input
node unchanged; in particular the clock node, which `grci_init_module` makes
distinct from every input constant node. -/
theorem publishInputs_value_ne (md : GModule) (st : GSt) (inp : Nat → Bool) (n : Nat)
    (h : ∀ i, i < md.inputCount → md.inputNodes i ≠ n) :
    (publishInputs md st inp).value n = st.value n := by
  unfold publishInputs
  apply foldl_proj_eq_mem (p := fun st : GSt => st.value n)
  intro b a ha
  exact Function.update_noteq (fun hn => h a (List.mem_range.mp ha) hn.symm) _ _

theorem loadSubStates_vvs (g : GGraph) (md : GModule) (st : GSt) :
    (loadSubStates g md st).vvs = st.vvs := by
  unfold loadSubStates
  apply foldl_proj_eq
  intro b a
  by_cases hn : md.partNamed a
  · by_cases hr : md.partIsRam a
    · simp only [hn, hr, if_true]
      split
      · rfl
      · rfl
    · simp only [hn, hr, if_true, if_false]
      apply foldl_proj_eq
      intro b2 a2
      rfl
  · simp [hn]

theorem toggleClock_value_clock (g : GGraph) (st : GSt) :
    (toggleClock g st).value g.clock = !st.value g.clock := by
  unfold toggleClock
  exact Function.update_same _ _ _

theorem rootStep_lvs (g : GGraph) (k : Nat) (st : GSt) :
    (rootStep g k st).lvs = st.lvs := by
  unfold rootStep
  exact evalDff_lvs g _ true _ _

theorem dffPass_lvs (g : GGraph) (st : GSt) :
    (dffPass g st).lvs = st.lvs := by
  unfold dffPass
  apply foldl_proj_eq
  intro b a
  exact rootStep_lvs g a b

theorem commitDffs_nolast (g : GGraph) (st : GSt) :
    (commitDffs g st).nolast = st.nolast := by
  unfold commitDffs
  apply foldl_proj_eq
  intro b a
  rfl

theorem evalOutputs_lvs (g : GGraph) (md : GModule) (st : GSt) :
    (evalOutputs g md st).2.lvs = st.lvs := by
  unfold evalOutputs
  apply foldl_proj_eq (p := fun acc : (Nat → Bool) × GSt => acc.2.lvs)
  intro b a
  exact evalNode_lvs g _ _ _

theorem snapshotSubStates_nosub (g : GGraph) (md : GModule) (st : GSt) :
    (snapshotSubStates g md st).nosub = st.nosub := by
  unfold snapshotSubStates
  apply foldl_proj_eq
  intro b a
  by_cases hn : md.partNamed a
  · by_cases hr : md.partIsRam a
    · simp only [hn, hr, if_true]
      split
      · rfl
      · rfl
    · simp only [hn, hr, if_true, if_false]
      apply foldl_proj_eq
      intro b2 a2
      rfl
  · simp [hn]

/-- The clock value after the prepare phase is the flipped clock value:
publishing inputs does not touch the clock node (hypothesis `h`, which holds
for every instantiated module because `grci_init_module` backs each input by
a fresh constant node), the buffer load only writes DFF states and RAM
bytes, and the visited-clearing loop only writes visited flags. -/
theorem preparePhase_clock (g : GGraph) (md : GModule) (st : GSt) (inp : Nat → Bool)
    (h : ∀ i, i < md.inputCount → md.inputNodes i ≠ g.clock) :
    (preparePhase g md st inp).value g.clock = !st.value g.clock := by
  unfold preparePhase
  have e1 : (clearAllVisited g (toggleClock g (loadSubStates g md (publishInputs md st inp)))).value
      = (toggleClock g (loadSubStates g md (publishInputs md st inp))).value := rfl
  rw [e1, toggleClock_value_clock]
  have e2 : (loadSubStates g md (publishInputs md st inp)).value = (publishInputs md st inp).value :=
    congrArg (fun p => p.1) (loadSubStates_vvs g md _)
  rw [e2, publishInputs_value_ne md st inp g.clock h]

/-- After the prepare phase, no later phase of `grci_step_module` writes any
constant node's value, so the returned level and the final clock value both
equal the toggled clock. -/
theorem stepModule_clock (g : GGraph) (md : GModule) (st : GSt) (inp : Nat → Bool)
    (h : ∀ i, i < md.inputCount → md.inputNodes i ≠ g.clock) :
    (stepModule g md st inp).1 = !st.value g.clock ∧
    (stepModule g md st inp).2.2.value g.clock = !st.value g.clock := by
  have hval : ∀ s : GSt, (stepModule g md s inp).2.2.value = (preparePhase g md s inp).value := by
    intro s
    have h3 : ∀ t : GSt, (snapshotSubStates g md t).value = t.value :=
      fun t => congrArg (fun p => p.1) (snapshotSubStates_nosub g md t)
    have h4 : ∀ t : GSt, (evalOutputs g md t).2.value = t.value :=
      fun t => congrArg (fun p => p.2.1) (evalOutputs_lvs g md t)
    show (snapshotSubStates g md (evalOutputs g md
        (if (preparePhase g md s inp).value g.clock = true then
          commitDffs g (dffPass g (preparePhase g md s inp))
        else preparePhase g md s inp)).2).value = (preparePhase g md s inp).value
    rw [h3, h4]
    by_cases hc : (preparePhase g md s inp).value g.clock = true
    · rw [if_pos hc]
      exact (congrArg (fun p => p.1) (commitDffs_nolast g _)).trans
        (congrArg (fun p => p.2.1) (dffPass_lvs g _))
    · rw [if_neg hc]
  have hret : (stepModule g md st inp).1 = (stepModule g md st inp).2.2.value g.clock := rfl
  rw [hret, congrFun (hval st) g.clock, preparePhase_clock g md st inp h]
  exact ⟨rfl, rfl⟩

theorem bnot_parity (n : Nat) :
    (!decide (n % 2 = 0)) = decide ((n + 1) % 2 = 0) := by
  rcases Nat.mod_two_eq_zero_or_one n with h | h <;>
    simp [h, Nat.add_mod]

/-- Under the same input-node condition, the clock value after n steps and
the level returned by the (n+1)-th step follow the parity of n: the clock
starts high, so odd-numbered calls (the first, third, ...) return low and
even-numbered calls return high. -/
theorem runLevel_parity (g : GGraph) (md : GModule) (inps : Nat → Nat → Bool) (st : GSt)
    (h : ∀ i, i < md.inputCount → md.inputNodes i ≠ g.clock)
    (h0 : st.value g.clock = simulatorInitClock) :
    ∀ n, (runStates g md inps st n).value g.clock = decide (n % 2 = 0) ∧
      runLevel g md inps st n = decide ((n + 1) % 2 = 0) := by
  intro n
  induction n with
  | zero =>
    refine ⟨by rw [show runStates g md inps st 0 = st from rfl, h0]; rfl, ?_⟩
    show (stepModule g md (runStates g md inps st 0) (inps 0)).1 = _
    rw [(stepModule_clock g md _ _ h).1,
      show runStates g md inps st 0 = st from rfl, h0]
    rfl
  | succ n ih =>
    have hstep : (runStates g md inps st (n + 1)).value g.clock
        = !(runStates g md inps st n).value g.clock := by
      show (stepModule g md (runStates g md inps st n) (inps n)).2.2.value g.clock = _
      exact (stepModule_clock g md _ _ h).2
    constructor
    · rw [hstep, ih.1, bnot_parity]
    · show (stepModule g md (runStates g md inps st (n + 1)) (inps (n + 1))).1 = _
      rw [(stepModule_clock g md _ _ h).1, hstep, ih.1, bnot_parity, bnot_parity]

/-- A minimal concrete instantiated module used by witnesses: three constant
nodes (const-0, const-1, clock), no DFFs, no parts, no inputs or outputs. -/
def wG : GGraph where
  kind := fun _ => .const
  nodeCount := 3
  dffList := fun _ => 0
  dffCount := 0
  clock := 2
  ramInput := fun _ _ => 0
  ramLoad := fun _ => 0
  ramAddr := fun _ _ => 0
  ramOutput := fun _ _ => 0

/-- The module-instance data of `wG`. -/
def wMd : GModule where
  inputCount := 0
  inputNodes := fun _ => 0
  outputCount := 0
  outputNodes := fun _ => 0
  partCount := 0
  partNamed := fun _ => false
  partIsRam := fun _ => false
  dffOff := fun _ => 0
  dffLen := fun _ => 0

/-- The state of `wG` just after instantiation: const-1 and the clock hold
1, everything else is zeroed. -/
def wSt : GSt where
  value := fun n => n == 1 || n == 2
  visited := fun _ => false
  cached := fun _ => false
  last := fun _ => false
  ram := fun _ _ => 0
  sub := fun _ _ => false

/-- C3: the simulator clock starts at level 1 at instantiation
(`grci_constant_new(sim, 1)`); every call to `grci_step_module` first flips
the clock and returns the new clock level, both as the returned value and as
the clock node's stored value; consequently, starting from the initial clock
level, the first step returns 0 (low) and the n-th step returns high exactly
when n is even, i.e. consecutive steps return strictly alternating levels.
The hypothesis that no module-input constant node is the clock node holds
for every instantiated module because `grci_init_module` allocates a fresh
constant node per input bit. -/
theorem C3_clock_flip_and_alternation :
    simulatorInitClock = true ∧
    (∀ (g : GGraph) (md : GModule) (st : GSt) (inp : Nat → Bool),
      (∀ i, i < md.inputCount → md.inputNodes i ≠ g.clock) →
      (stepModule g md st inp).1 = !st.value g.clock ∧
      (stepModule g md st inp).2.2.value g.clock = !st.value g.clock) ∧
    (∀ (g : GGraph) (md : GModule) (inps : Nat → Nat → Bool) (st : GSt),
      (∀ i, i < md.inputCount → md.inputNodes i ≠ g.clock) →
      st.value g.clock = simulatorInitClock →
      ∀ n, runLevel g md inps st n = decide ((n + 1) % 2 = 0)) := by
  refine ⟨rfl, fun g md st inp h => stepModule_clock g md st inp h,
    fun g md inps st h h0 n => (runLevel_parity g md inps st h h0 n).2⟩

/-- Witness for C3 at the concrete module `wG`: the first call returns low,
the second high. -/
theorem C3_witness :
    runLevel wG wMd (fun _ _ => false) wSt 0 = decide ((0 + 1) % 2 = 0) ∧
    runLevel wG wMd (fun _ _ => false) wSt 1 = decide ((1 + 1) % 2 = 0) :=
  ⟨C3_clock_flip_and_alternation.2.2 wG wMd (fun _ _ => false) wSt
      (fun i hi => absurd hi (Nat.not_lt_zero i)) rfl 0,
    C3_clock_flip_and_alternation.2.2 wG wMd (fun _ _ => false) wSt
      (fun i hi => absurd hi (Nat.not_lt_zero i)) rfl 1⟩

/-- C5: for a named non-RAM submodule, reading the submodule's state buffer
and writing the same values back before the next step leaves the state
literally unchanged, so the next `grci_step_module` call returns the same
level, output vector and state for any input vector. -/
theorem C5_snapshot_restore_roundtrip (g : GGraph) (md : GModule) (st : GSt)
    (inp : Nat → Bool) (i : Nat) (_hnamed : md.partNamed i = true)
    (_hnoram : md.partIsRam i = false) :
    writeSub st i (readSub st i) = st ∧
    stepModule g md (writeSub st i (readSub st i)) inp = stepModule g md st inp := by
  have h : writeSub st i (readSub st i) = st := by
    unfold writeSub readSub
    rw [Function.update_eq_self]
  exact ⟨h, by rw [h]⟩

/-- A module-instance table with one named non-RAM part owning one DFF. -/
def wMdNamed : GModule where
  inputCount := 0
  inputNodes := fun _ => 0
  outputCount := 0
  outputNodes := fun _ => 0
  partCount := 1
  partNamed := fun _ => true
  partIsRam := fun _ => false
  dffOff := fun _ => 0
  dffLen := fun _ => 1

/-- Witness for C5 at a concrete module with a named part. -/
theorem C5_witness :
    stepModule wG wMdNamed (writeSub wSt 0 (readSub wSt 0)) (fun _ => false)
      = stepModule wG wMdNamed wSt (fun _ => false) :=
  (C5_snapshot_restore_roundtrip wG wMdNamed wSt (fun _ => false) 0 rfl rfl).2

/-!  RAM64K buffer packing (C6). -/

/-- The byte the buffer-load loop accumulates for byte index j: the OR of
`states[8j + t] << t` over t = 0..7, exactly the eight `c |=` steps of the
loop. -/
def byteOf (states : Nat → Bool) (j : Nat) : Nat :=
  (List.range 8).foldl (fun c t => c ||| ((if states (8 * j + t) then 1 else 0) <<< t)) 0

theorem ramLoadAux_chunk (states : Nat → Bool) (k m : Nat) (data : Nat → Nat) :
    ramLoadAux states (8 * (k + 1)) (8 * m) 0 data =
      ramLoadAux states (8 * k) (8 * (m + 1)) 0
        (Function.update data m (byteOf states m)) := by
  have h0 : 8 * m % 8 = 0 := by omega
  have h1 : (8 * m + 1) % 8 = 1 := by omega
  have h2 : (8 * m + 1 + 1) % 8 = 2 := by omega
  have h3 : (8 * m + 1 + 1 + 1) % 8 = 3 := by omega
  have h4 : (8 * m + 1 + 1 + 1 + 1) % 8 = 4 := by omega
  have h5 : (8 * m + 1 + 1 + 1 + 1 + 1) % 8 = 5 := by omega
  have h6 : (8 * m + 1 + 1 + 1 + 1 + 1 + 1) % 8 = 6 := by omega
  have h7 : (8 * m + 1 + 1 + 1 + 1 + 1 + 1 + 1) % 8 = 7 := by omega
  have hd : (8 * m + 1 + 1 + 1 + 1 + 1 + 1 + 1) / 8 = m := by omega
  rw [show 8 * (k + 1) = 8 * k + 1 + 1 + 1 + 1 + 1 + 1 + 1 + 1 from by ring]
  simp only [ramLoadAux, h0, h1, h2, h3, h4, h5, h6, h7, hd]
  norm_num
  rw [show 8 * m + 1 + 1 + 1 + 1 + 1 + 1 + 1 + 1 = 8 * (m + 1) from by ring]
  simp [byteOf, List.range_succ]

theorem ramLoadAux_bytes (states : Nat → Bool) :
    ∀ (k m : Nat) (data : Nat → Nat) (j : Nat),
      ramLoadAux states (8 * k) (8 * m) 0 data j =
        if m ≤ j ∧ j < m + k then byteOf states j else data j := by
  intro k
  induction k with
  | zero =>
    intro m data j
    rw [if_neg (by omega)]
    rfl
  | succ k ih =>
    intro m data j
    rw [ramLoadAux_chunk, ih (m + 1)]
    by_cases hj : j = m
    · subst hj
      rw [if_neg (by omega), if_pos (by omega), Function.update_same]
    · rw [Function.update_noteq hj]
      by_cases hin : m + 1 ≤ j ∧ j < m + 1 + k
      · rw [if_pos hin, if_pos (by omega)]
      · rw [if_neg hin, if_neg (by omega)]

/-- Each byte the buffer-load loop of `grci_step_module` writes into the RAM
backing store. -/
theorem ramLoadBytes_byte (states : Nat → Bool) (data : Nat → Nat) (j : Nat)
    (hj : j < 65536) :
    ramLoadBytes states data j = byteOf states j := by
  unfold ramLoadBytes
  rw [show (65536 * 8 : Nat) = 8 * 65536 from by norm_num,
    show (0 : Nat) = 8 * 0 from rfl, ramLoadAux_bytes states 65536 0 data j,
    if_pos (by omega)]

theorem testBit_one_eq (k : Nat) : Nat.testBit 1 k = decide (k = 0) := by
  cases k with
  | zero => rfl
  | succ k =>
    rw [Nat.testBit_succ]
    simp [Nat.zero_testBit]

theorem testBit_bitIf (c : Bool) (k : Nat) :
    Nat.testBit (if c then 1 else 0) k = (c && decide (k = 0)) := by
  cases c
  · simp [Nat.zero_testBit]
  · simp [testBit_one_eq]

theorem decide_bitIf_mod (b : Bool) :
    decide ((if b then 1 else 0 : Nat) % 2 = 1) = b := by
  cases b <;> rfl

theorem byteOf_testBit (states : Nat → Bool) (j i : Nat) (h : i < 8) :
    Nat.testBit (byteOf states j) i = states (8 * j + i) := by
  unfold byteOf
  simp only [List.range_succ, List.range_zero, List.foldl_append, List.foldl_cons,
    List.foldl_nil, List.nil_append]
  interval_cases i <;>
    simp [Nat.testBit_or, Nat.testBit_shiftLeft, testBit_bitIf, Nat.zero_testBit,
      decide_bitIf_mod]

theorem beq_one_eq_testBit (x i : Nat) :
    ((x >>> i &&& 1) == 1) = Nat.testBit x i := by
  rw [Nat.and_one_is_mod, Nat.testBit_to_div_mod, Nat.shiftRight_eq_div_pow]
  rcases Nat.mod_two_eq_zero_or_one (x / 2 ^ i) with h | h <;> rw [h] <;> rfl

/-- C6: the 524288-element RAM64K state buffer is packed little-bit-endian
within each byte of the 64 KiB backing store: bit i of byte j corresponds to
buffer index j*8 + i, both when the buffer is loaded into the store at the
start of a step (`ramLoadBytes`, grci.c:2223-2230) and when the store is
snapshotted back into the buffer at the end of a step
(`ramSnapshotStates`, grci.c:2286-2289). -/
theorem C6_ram_buffer_packing :
    (∀ (states : Nat → Bool) (data : Nat → Nat) (j i : Nat), j < 65536 → i < 8 →
      Nat.testBit (ramLoadBytes states data j) i = states (j * 8 + i)) ∧
    (∀ (data : Nat → Nat) (old : Nat → Bool) (j i : Nat), j < 65536 → i < 8 →
      ramSnapshotStates data old (j * 8 + i) = Nat.testBit (data j) i) := by
  constructor
  · intro states data j i hj hi
    rw [ramLoadBytes_byte states data j hj, Nat.mul_comm j 8, byteOf_testBit states j i hi]
  · intro data old j i hj hi
    unfold ramSnapshotStates
    rw [if_pos (by omega), show (j * 8 + i) / 8 = j from by omega,
      show (j * 8 + i) % 8 = i from by omega, beq_one_eq_testBit]

/-- Witness for C6 at concrete arguments. -/
theorem C6_witness :
    Nat.testBit (ramLoadBytes (fun _ => true) (fun _ => 0) 5) 3
        = (fun _ => true : Nat → Bool) (5 * 8 + 3) ∧
    ramSnapshotStates (fun _ => 129) (fun _ => false) (7 * 8 + 0)
        = Nat.testBit ((fun _ => (129 : Nat)) 7) 0 :=
  ⟨C6_ram_buffer_packing.1 (fun _ => true) (fun _ => 0) 5 3 (by decide) (by decide),
    C6_ram_buffer_packing.2 (fun _ => 129) (fun _ => false) 7 0 (by decide) (by decide)⟩

/-!  The DFF pass: what later DFFs see of earlier ones (C1, C2), and the
falling-edge frame property (C4). -/

/-- A two-DFF chain as elaborated from
`module M(x) -> o { Dff(x) -> a Dff(a) -> o }` with the input driven by the
shared const-1 node: nodes 0/1/2 are const-0, const-1 and the clock, node 3
is the first DFF (input: node 1), node 4 the second DFF (input: node 3).
The DFF list is [3, 4]. -/
def cgChain : GGraph where
  kind := fun n => if n = 3 then .dff 1 else if n = 4 then .dff 3 else .const
  nodeCount := 5
  dffList := fun k => k + 3
  dffCount := 2
  clock := 2
  ramInput := fun _ _ => 0
  ramLoad := fun _ => 0
  ramAddr := fun _ _ => 0
  ramOutput := fun _ _ => 0

/-- The state of `cgChain` with both DFFs at 0, const-1 high and the clock
low, so the next step is a rising edge. -/
def stChain : GSt where
  value := fun n => n == 1
  visited := fun _ => false
  cached := fun _ => false
  last := fun _ => false
  ram := fun _ _ => 0
  sub := fun _ _ => false

set_option maxRecDepth 20000 in
/-- Counterexample to C2 as stated: on the rising edge, DFF 3 computes the
new value 1 (from const-1) and DFF 4, evaluated later in the same pass,
reads DFF 3 — but receives DFF 3's previous `last_state` 0, not its newly
computed value 1: after the step DFF 4's state (0) differs from DFF 3's
committed new state (1).  If the claim held, DFF 4's new state would equal
DFF 3's new state. -/
theorem C2_counterexample :
    (stepModule cgChain wMd stChain (fun _ => false)).1 = true ∧
    (stepModule cgChain wMd stChain (fun _ => false)).2.2.last 3 = true ∧
    (stepModule cgChain wMd stChain (fun _ => false)).2.2.last 4 = false ∧
    (stepModule cgChain wMd stChain (fun _ => false)).2.2.last 4 ≠
      (stepModule cgChain wMd stChain (fun _ => false)).2.2.last 3 := by
  exact ⟨rfl, rfl, rfl, by decide⟩

/-- C2 amended: after a DFF has been evaluated in the rising-edge pass its
visited flag is retained, and any DFF evaluated later that reaches it
receives its PREVIOUS `last_state` — grci_eval_dff's visited branch returns
`last_state` for DFF nodes and leaves the state unchanged — and no DFF-pass
sub-pass modifies any `last_state` (the commit to `last_state` happens only
after the whole pass), so the previous value is what later DFFs observe.
(Only RAM64K output nodes, whose visited branch returns `cached_state`,
expose a newly computed value to later DFFs; their flags are in fact cleared
between sub-passes because the clearing loop tests for the DFF node type
only.) -/
theorem C2_amended_previous_state_returned :
    (∀ (g : GGraph) (fuel : Nat) (root : Bool) (n i : Nat) (st : GSt),
      g.kind n = .dff i → st.visited n = true →
      evalDff g (fuel + 1) root n st = (st.last n, st)) ∧
    (∀ (g : GGraph) (st : GSt), (dffPass g st).last = st.last) := by
  constructor
  · intro g fuel root n i st hk hv
    rw [evalDff, if_pos hv, hk]
  · intro g st
    exact congrArg (fun p => p.1) (dffPass_lvs g st)

/-- Witness for C2's amended statement: a visited DFF yields its last state,
and the DFF pass of the chain module leaves `last` untouched. -/
theorem C2_amended_witness :
    evalDff cgChain 5 false 3 { stChain with visited := fun n => n == 3 }
        = ({ stChain with visited := fun n => n == 3 }.last 3,
           { stChain with visited := fun n => n == 3 }) ∧
    (dffPass cgChain stChain).last = stChain.last :=
  ⟨C2_amended_previous_state_returned.1 cgChain 4 false 3 1
      { stChain with visited := fun n => n == 3 } rfl rfl,
    C2_amended_previous_state_returned.2 cgChain stChain⟩

theorem foldl_inv_mem {α β : Type} (f : β → α → β) (P : β → Prop) :
    ∀ (l : List α), (∀ b a, a ∈ l → P b → P (f b a)) →
      ∀ (b : β), P b → P (List.foldl f b l) := by
  intro l
  induction l with
  | nil => intro _ b hb; exact hb
  | cons a l ih =>
    intro h b hb
    rw [List.foldl_cons]
    exact ih (fun b a ha => h b a (List.mem_cons_of_mem _ ha))
      (f b a) (h b a (List.mem_cons_self a l) hb)

/-- In a module without RAM64K parts, `grci_eval_node` never writes RAM
memory (the only path into a store is the RAM64K case, which cannot be
reached when no node is a RAM output). -/
theorem evalNode_ram_noram (g : GGraph) (hnr : ∀ n r, g.kind n ≠ .ramout r) :
    ∀ (fuel : Nat) (n : Nat) (st : GSt), (evalNode g fuel n st).2.ram = st.ram := by
  intro fuel
  induction fuel with
  | zero => intro n st; rfl
  | succ fuel ih =>
    intro n st
    rw [evalNode]
    split
    · rfl
    · split
      · rfl
      · exact (ih _ _).trans (ih _ _)
      · rfl
      · rename_i r heq
        exact absurd heq (hnr n r)

/-- In a module without RAM64K parts the buffer-load phase with buffers that
match the current DFF states (as the previous step's snapshot left them) is
the identity on `last`, `sub` and `ram`. -/
theorem loadSubStates_consistent (g : GGraph) (md : GModule) (st : GSt)
    (hnr : ∀ n r, g.kind n ≠ .ramout r)
    (hcons : ∀ i, i < md.partCount → md.partNamed i = true → md.partIsRam i = false →
      ∀ j, j < md.dffLen i → st.sub i j = st.last (g.dffList (md.dffOff i + j))) :
    (loadSubStates g md st).last = st.last ∧ (loadSubStates g md st).sub = st.sub ∧
      (loadSubStates g md st).ram = st.ram := by
  unfold loadSubStates
  apply foldl_inv_mem _
    (fun b : GSt => b.last = st.last ∧ b.sub = st.sub ∧ b.ram = st.ram)
  · intro b a ha hb
    by_cases hn : md.partNamed a = true
    · by_cases hr : md.partIsRam a = true
      · simp only [hn, hr, if_true]
        split
        · rename_i r heq
          exact absurd heq (hnr _ r)
        · exact hb
      · simp only [hn, hr, if_true, Bool.false_eq_true, if_false]
        apply foldl_inv_mem _
          (fun c : GSt => c.last = st.last ∧ c.sub = st.sub ∧ c.ram = st.ram)
        · intro c j hj ⟨hcl, hcs, hcr⟩
          refine ⟨?_, hcs, hcr⟩
          show Function.update c.last (g.dffList (md.dffOff a + j)) (c.sub a j) = st.last
          rw [hcs, hcons a (List.mem_range.mp ha) hn (by simp [hr])
            j (List.mem_range.mp hj), ← hcl, Function.update_eq_self]
        · exact hb
    · simp only [hn, Bool.false_eq_true, if_false]
      exact hb
  · exact ⟨rfl, rfl, rfl⟩

/-- The evaluation branch of `grci_step_module`: the state after the
(conditional) DFF pass and commit. -/
def stepBranch (g : GGraph) (md : GModule) (st : GSt) (inp : Nat → Bool) : GSt :=
  if (preparePhase g md st inp).value g.clock = true then
    commitDffs g (dffPass g (preparePhase g md st inp))
  else preparePhase g md st inp

/-- `grci_step_module` written as the composition of its phases. -/
theorem stepModule_def (g : GGraph) (md : GModule) (st : GSt) (inp : Nat → Bool) :
    stepModule g md st inp =
      ((snapshotSubStates g md (evalOutputs g md (stepBranch g md st inp)).2).value g.clock,
       (evalOutputs g md (stepBranch g md st inp)).1,
       snapshotSubStates g md (evalOutputs g md (stepBranch g md st inp)).2) := rfl

/-- A module instance with a single named DFF part: nodes 0/1/2 are const-0,
const-1 and the clock, node 3 is a DFF fed by const-0; elaborated from
`module M() -> o { d : Dff(0) -> o }`-style source. -/
def cgDffNamed : GGraph where
  kind := fun n => if n = 3 then .dff 0 else .const
  nodeCount := 4
  dffList := fun _ => 3
  dffCount := 1
  clock := 2
  ramInput := fun _ _ => 0
  ramLoad := fun _ => 0
  ramAddr := fun _ _ => 0
  ramOutput := fun _ _ => 0

/-- A state of `cgDffNamed` whose submodule buffer has been modified by the
caller between steps: the DFF's `last_state` is 0 but the buffer holds 1.
The clock is high, so the next step is a falling edge. -/
def stTampered : GSt where
  value := fun n => n == 1 || n == 2
  visited := fun _ => false
  cached := fun _ => false
  last := fun _ => false
  ram := fun _ _ => 0
  sub := fun i j => i == 0 && j == 0

set_option maxRecDepth 20000 in
/-- Counterexample to C4 as stated: a falling-edge invocation of
`grci_step_module` on a module with a named DFF submodule whose buffer was
written between steps changes the DFF's `last_state` from 0 to 1, because
the buffer-load phase at the start of every step (grci.c:2212-2240) copies
the buffer into `last_state` unconditionally, on either edge. -/
theorem C4_counterexample :
    (stepModule cgDffNamed wMdNamed stTampered (fun _ => false)).1 = false ∧
    stTampered.last 3 = false ∧
    (stepModule cgDffNamed wMdNamed stTampered (fun _ => false)).2.2.last 3 = true := by
  exact ⟨rfl, rfl, rfl⟩

/-- C4 amended: for a module containing no RAM64K node, a falling-edge
invocation of `grci_step_module` whose named submodule buffers still hold
the previous step's snapshot (the buffer bit equals the corresponding DFF's
`last_state`) changes no DFF's `last_state` and no RAM byte: the buffer
load is then the identity on `last`, the DFF pass and commit are skipped on
a low edge, and the output pass writes only visited flags and caches.  (The
claim as stated fails because the buffer load runs unconditionally; with a
RAM64K part the output pass can in addition store into another RAM's memory
through `grci_eval_dff` on an address network, which is why the amendment
also excludes RAM parts.) -/
theorem C4_amended_falling_edge_frame (g : GGraph) (md : GModule) (st : GSt)
    (inp : Nat → Bool)
    (hnr : ∀ n r, g.kind n ≠ .ramout r)
    (hin : ∀ i, i < md.inputCount → md.inputNodes i ≠ g.clock)
    (hclk : st.value g.clock = true)
    (hcons : ∀ i, i < md.partCount → md.partNamed i = true → md.partIsRam i = false →
      ∀ j, j < md.dffLen i → st.sub i j = st.last (g.dffList (md.dffOff i + j))) :
    (stepModule g md st inp).1 = false ∧
    (stepModule g md st inp).2.2.last = st.last ∧
    (stepModule g md st inp).2.2.ram = st.ram := by
  have hpv := publishInputs_novalue md st inp
  have hplast : (publishInputs md st inp).last = st.last :=
    congrArg (fun p => p.2.2.1) hpv
  have hpsub : (publishInputs md st inp).sub = st.sub :=
    congrArg (fun p => p.2.2.2.2) hpv
  have hpram : (publishInputs md st inp).ram = st.ram :=
    congrArg (fun p => p.2.2.2.1) hpv
  have hload := loadSubStates_consistent g md (publishInputs md st inp) hnr
    (by rw [hplast, hpsub]; exact hcons)
  have hprep_last : (preparePhase g md st inp).last = st.last := by
    show (clearAllVisited g (toggleClock g (loadSubStates g md (publishInputs md st inp)))).last
        = st.last
    exact (hload.1.trans hplast)
  have hprep_ram : (preparePhase g md st inp).ram = st.ram := by
    show (clearAllVisited g (toggleClock g (loadSubStates g md (publishInputs md st inp)))).ram
        = st.ram
    exact (hload.2.2.trans hpram)
  have hlow : (preparePhase g md st inp).value g.clock = false := by
    rw [preparePhase_clock g md st inp hin, hclk]
    rfl
  have hbr : stepBranch g md st inp = preparePhase g md st inp := by
    unfold stepBranch
    rw [hlow, if_neg Bool.false_ne_true]
  have hout_last : (evalOutputs g md (stepBranch g md st inp)).2.last
      = (stepBranch g md st inp).last :=
    congrArg (fun p => p.1) (evalOutputs_lvs g md _)
  have hout_ram : (evalOutputs g md (stepBranch g md st inp)).2.ram
      = (stepBranch g md st inp).ram := by
    unfold evalOutputs
    apply foldl_proj_eq (p := fun acc : (Nat → Bool) × GSt => acc.2.ram)
    intro b a
    exact evalNode_ram_noram g hnr _ _ _
  have hsnap := snapshotSubStates_nosub g md (evalOutputs g md (stepBranch g md st inp)).2
  have hsnap_last : (snapshotSubStates g md (evalOutputs g md (stepBranch g md st inp)).2).last
      = (evalOutputs g md (stepBranch g md st inp)).2.last :=
    congrArg (fun p => p.2.2.2.1) hsnap
  have hsnap_ram : (snapshotSubStates g md (evalOutputs g md (stepBranch g md st inp)).2).ram
      = (evalOutputs g md (stepBranch g md st inp)).2.ram :=
    congrArg (fun p => p.2.2.2.2) hsnap
  refine ⟨?_, ?_, ?_⟩
  · have := (stepModule_clock g md st inp hin).1
    rw [this, hclk]
    rfl
  · rw [stepModule_def]
    exact hsnap_last.trans (hout_last.trans (hbr ▸ hprep_last))
  · rw [stepModule_def]
    exact hsnap_ram.trans (hout_ram.trans (hbr ▸ hprep_ram))

/-- The consistent-buffer state of `cgDffNamed` right after instantiation:
buffers zero, DFF state zero, clock high. -/
def stConsistent : GSt where
  value := fun n => n == 1 || n == 2
  visited := fun _ => false
  cached := fun _ => false
  last := fun _ => false
  ram := fun _ _ => 0
  sub := fun _ _ => false

/-- Witness for C4's amended statement on the concrete named-DFF module. -/
theorem C4_amended_witness :
    (stepModule cgDffNamed wMdNamed stConsistent (fun _ => false)).1 = false ∧
    (stepModule cgDffNamed wMdNamed stConsistent (fun _ => false)).2.2.last
      = stConsistent.last ∧
    (stepModule cgDffNamed wMdNamed stConsistent (fun _ => false)).2.2.ram
      = stConsistent.ram :=
  C4_amended_falling_edge_frame cgDffNamed wMdNamed stConsistent (fun _ => false)
    (fun n r => by
      unfold cgDffNamed
      by_cases h : n = 3 <;> simp [h])
    (fun i hi => absurd hi (Nat.not_lt_zero i))
    rfl
    (fun i hi hn hr j hj => rfl)

/-!  The rising-edge DFF semantics (C1). -/

/-- The evaluation described by the claim and spec: a pure combinational
evaluation of a network in which every node on the DFF list (plain DFFs and
RAM64K output nodes, both of which carry a `last_state`) contributes its
previous `last_state` — the value from before this step's commit —
constants their (current) value, and NAND gates the NAND of their inputs.
This is the claim-side definition, to be compared against what
`grci_step_module` actually computes. -/
def specDffEval (g : GGraph) (last0 value0 : Nat → Bool) : Nat → Nat → Bool
  | 0, _ => false
  | fuel+1, n =>
    match g.kind n with
    | .const => value0 n
    | .nand a b =>
      !(specDffEval g last0 value0 fuel a && specDffEval g last0 value0 fuel b)
    | .dff _ => last0 n
    | .ramout _ => last0 n

/-- Whether a node kind is combinational (constant or NAND). -/
def isComb : GNodeKind → Bool
  | .const => true
  | .nand _ _ => true
  | _ => false

/-- The value of `specDffEval` at its own sufficient fuel. -/
def DSpec (g : GGraph) (rank : Nat → Nat) (last0 value0 : Nat → Bool) (n : Nat) : Bool :=
  specDffEval g last0 value0 (rank n + 1) n

/-- `specDffEval` is fuel-insensitive beyond a topological rank of the
combinational structure. -/
theorem specDffEval_rank_eq (g : GGraph) (rank : Nat → Nat) (last0 value0 : Nat → Bool)
    (hrk : ∀ n, n < g.nodeCount → ∀ a b, g.kind n = .nand a b →
      rank a < rank n ∧ rank b < rank n)
    (hcl : ∀ n, n < g.nodeCount → ∀ a b, g.kind n = .nand a b →
      a < g.nodeCount ∧ b < g.nodeCount) :
    ∀ (fuel : Nat) (n : Nat), n < g.nodeCount → rank n < fuel →
      specDffEval g last0 value0 fuel n = DSpec g rank last0 value0 n := by
  intro fuel
  induction fuel using Nat.strong_induction_on with
  | _ fuel ih =>
    intro n hn hr
    match fuel, hr with
    | fuel+1, hr =>
      unfold DSpec
      cases hk : g.kind n with
      | const => rw [specDffEval, specDffEval, hk]
      | nand a b =>
        obtain ⟨hra, hrb⟩ := hrk n hn a b hk
        obtain ⟨hca, hcb⟩ := hcl n hn a b hk
        rw [specDffEval, specDffEval, hk]
        simp only []
        rw [ih fuel (Nat.lt_succ_self fuel) a hca (by omega),
          ih fuel (Nat.lt_succ_self fuel) b hcb (by omega),
          ih (rank n) (by omega) a hca (by omega),
          ih (rank n) (by omega) b hcb (by omega)]
      | dff i => rw [specDffEval, specDffEval, hk]
      | ramout r => rw [specDffEval, specDffEval, hk]

/-- A module containing one RAM64K part and one DFF fed by the RAM's output
bit 0: nodes 0/1/2 are const-0, const-1 and the clock, nodes 3..18 the
RAM's 16 output nodes, node 19 the DFF.  The RAM's load input and data
input bit 0 are wired to const-1, its other data inputs and all 16 address
bits to const-0.  The DFF list is [3..18, 19] (RAM before DFF in
declaration order). -/
def cgRam : GGraph where
  kind := fun n => if n = 19 then .dff 3 else if 3 ≤ n && n ≤ 18 then .ramout 0 else .const
  nodeCount := 20
  dffList := fun k => if k < 16 then 3 + k else 19
  dffCount := 17
  clock := 2
  ramInput := fun _ i => if i = 0 then 1 else 0
  ramLoad := fun _ => 1
  ramAddr := fun _ _ => 0
  ramOutput := fun _ i => 3 + i

set_option maxRecDepth 100000 in
/-- Counterexample to C1 as stated: in `cgRam`, on the rising edge the RAM
output node 3 (earlier in declaration order) is a DFF in the sense of the
claim (it is on the DFF list and carries a last_state), and the DFF node
19's input network consists exactly of node 3.  Node 3's previous
`last_state` is 0, so the claim predicts 0 for DFF 19's new state; but the
step stores 1 into RAM address 0 (load is high) and node 19 reads the RAM
output's freshly cached bit 1, so its new `last_state` is 1. -/
theorem C1_counterexample :
    (stepModule cgRam wMd stChain (fun _ => false)).1 = true ∧
    (stepModule cgRam wMd stChain (fun _ => false)).2.2.last 19 = true ∧
    specDffEval cgRam (preparePhase cgRam wMd stChain (fun _ => false)).last
      (preparePhase cgRam wMd stChain (fun _ => false)).value 20 3 = false ∧
    (stepModule cgRam wMd stChain (fun _ => false)).2.2.last 19 ≠
      specDffEval cgRam (preparePhase cgRam wMd stChain (fun _ => false)).last
        (preparePhase cgRam wMd stChain (fun _ => false)).value 20 3 := by
  refine ⟨by decide, by decide, by decide, by decide⟩

theorem DSpec_const (g : GGraph) (rank : Nat → Nat) (last0 value0 : Nat → Bool)
    (n : Nat) (hk : g.kind n = .const) :
    DSpec g rank last0 value0 n = value0 n := by
  unfold DSpec
  rw [specDffEval, hk]

theorem DSpec_dff (g : GGraph) (rank : Nat → Nat) (last0 value0 : Nat → Bool)
    (n i : Nat) (hk : g.kind n = .dff i) :
    DSpec g rank last0 value0 n = last0 n := by
  unfold DSpec
  rw [specDffEval, hk]

theorem DSpec_nand (g : GGraph) (rank : Nat → Nat) (last0 value0 : Nat → Bool)
    (n a b : Nat) (hk : g.kind n = .nand a b) :
    DSpec g rank last0 value0 n =
      !(specDffEval g last0 value0 (rank n) a && specDffEval g last0 value0 (rank n) b) := by
  unfold DSpec
  rw [specDffEval, hk]

/-- Correctness of the non-root `grci_eval_dff` during the rising-edge pass
of a module without RAM64K nodes: started on a state whose `last` fields
hold the pre-commit values, whose unvisited DFFs still cache those values,
and whose visited combinational nodes (all of rank at least r) cache their
spec values, the evaluator returns exactly the pure spec evaluation
`DSpec`, leaves `last`, `value` and every DFF cache and every
already-visited node's cache untouched, only grows the visited set, and
caches the spec value on every combinational node it newly visits. -/
theorem evalDff_correct (g : GGraph) (rank : Nat → Nat) (last0 value0 : Nat → Bool)
    (hnr : ∀ m rr, g.kind m ≠ .ramout rr)
    (hrk : ∀ m, m < g.nodeCount → ∀ a b, g.kind m = .nand a b →
      rank a < rank m ∧ rank b < rank m)
    (hcl : ∀ m, m < g.nodeCount → ∀ a b, g.kind m = .nand a b →
      a < g.nodeCount ∧ b < g.nodeCount) :
    ∀ (fuel : Nat) (n : Nat) (st : GSt) (r : Nat),
      n < g.nodeCount → rank n < fuel → rank n < r →
      st.last = last0 → st.value = value0 →
      (∀ d i, g.kind d = .dff i → st.visited d = false → st.cached d = last0 d) →
      (∀ c, c < g.nodeCount → isComb (g.kind c) = true → st.visited c = true →
        (st.cached c = DSpec g rank last0 value0 c ∨ r ≤ rank c)) →
      (evalDff g fuel false n st).1 = DSpec g rank last0 value0 n ∧
      (evalDff g fuel false n st).2.last = st.last ∧
      (evalDff g fuel false n st).2.value = st.value ∧
      (∀ m, st.visited m = true → (evalDff g fuel false n st).2.visited m = true) ∧
      (∀ m, st.visited m = true → (evalDff g fuel false n st).2.cached m = st.cached m) ∧
      (∀ d i, g.kind d = .dff i → (evalDff g fuel false n st).2.cached d = st.cached d) ∧
      (∀ c, c < g.nodeCount → isComb (g.kind c) = true →
        (evalDff g fuel false n st).2.visited c = true → st.visited c = false →
        (evalDff g fuel false n st).2.cached c = DSpec g rank last0 value0 c) := by
  intro fuel
  induction fuel with
  | zero =>
    intro n st r hn hfuel hr hlast hvalue hdffc hcomb
    omega
  | succ fuel ih =>
    intro n st r hn hfuel hr hlast hvalue hdffc hcomb
    by_cases hvis : st.visited n = true
    · -- the node is already visited: return without touching the state
      cases hk : g.kind n with
      | const =>
        have hstep : evalDff g (fuel + 1) false n st = (st.cached n, st) := by
          rw [evalDff, if_pos hvis, hk]
        rw [hstep]
        have hc : st.cached n = DSpec g rank last0 value0 n := by
          rcases hcomb n hn (by rw [hk]; rfl) hvis with h | h
          · exact h
          · omega
        exact ⟨hc, rfl, rfl, fun m hm => hm, fun m _ => rfl, fun d i _ => rfl,
          fun c _ _ h1 h2 => absurd h1 (by rw [h2]; exact Bool.false_ne_true)⟩
      | nand a b =>
        have hstep : evalDff g (fuel + 1) false n st = (st.cached n, st) := by
          rw [evalDff, if_pos hvis, hk]
        rw [hstep]
        have hc : st.cached n = DSpec g rank last0 value0 n := by
          rcases hcomb n hn (by rw [hk]; rfl) hvis with h | h
          · exact h
          · omega
        exact ⟨hc, rfl, rfl, fun m hm => hm, fun m _ => rfl, fun d i _ => rfl,
          fun c _ _ h1 h2 => absurd h1 (by rw [h2]; exact Bool.false_ne_true)⟩
      | dff i =>
        have hstep : evalDff g (fuel + 1) false n st = (st.last n, st) := by
          rw [evalDff, if_pos hvis, hk]
        rw [hstep]
        refine ⟨?_, rfl, rfl, fun m hm => hm, fun m _ => rfl, fun d i _ => rfl,
          fun c _ _ h1 h2 => absurd h1 (by rw [h2]; exact Bool.false_ne_true)⟩
        rw [DSpec_dff g rank last0 value0 n i hk, hlast]
      | ramout rr => exact absurd hk (hnr n rr)
    · -- the node is unvisited: mark it and evaluate by kind
      have hvisf : st.visited n = false := by
        cases h : st.visited n
        · rfl
        · exact absurd h hvis
      have hmono1 : ∀ m, st.visited m = true → Function.update st.visited n true m = true := by
        intro m hm
        by_cases hmn : m = n
        · subst hmn; exact Function.update_same _ _ _
        · rw [Function.update_noteq hmn]; exact hm
      cases hk : g.kind n with
      | const =>
        have hstep : evalDff g (fuel + 1) false n st
            = (Function.update st.cached n (st.value n) n,
               { st with visited := Function.update st.visited n true,
                         cached := Function.update st.cached n (st.value n) }) := by
          rw [evalDff, if_neg hvis, hk]
        rw [hstep]
        refine ⟨?_, rfl, rfl, ?_, ?_, ?_, ?_⟩
        · rw [Function.update_same, DSpec_const g rank last0 value0 n hk]
          exact congrFun hvalue n
        · exact hmono1
        · intro m hm
          have hmn : m ≠ n := fun h => absurd (h ▸ hm) hvis
          exact Function.update_noteq hmn _ _
        · intro d i hkd
          have hdn : d ≠ n := fun h => by rw [h, hk] at hkd; exact GNodeKind.noConfusion hkd
          exact Function.update_noteq hdn _ _
        · intro c hc hic h1 h2
          by_cases hcn : c = n
          · subst hcn
            show Function.update st.cached c (st.value c) c = DSpec g rank last0 value0 c
            rw [Function.update_same, DSpec_const g rank last0 value0 c hk]
            exact congrFun hvalue c
          · exfalso
            have : Function.update st.visited n true c = true := h1
            rw [Function.update_noteq hcn] at this
            rw [h2] at this
            exact Bool.false_ne_true this
      | dff i =>
        have hstep : evalDff g (fuel + 1) false n st
            = (st.cached n, { st with visited := Function.update st.visited n true }) := by
          rw [evalDff, if_neg hvis, hk]
          rfl
        rw [hstep]
        refine ⟨?_, rfl, rfl, hmono1, fun m _ => rfl, fun d i _ => rfl, ?_⟩
        · rw [DSpec_dff g rank last0 value0 n i hk]
          exact hdffc n i hk hvisf
        · intro c hc hic h1 h2
          by_cases hcn : c = n
          · subst hcn; rw [hk] at hic; exact absurd hic (by simp [isComb])
          · exfalso
            have : Function.update st.visited n true c = true := h1
            rw [Function.update_noteq hcn] at this
            rw [h2] at this
            exact Bool.false_ne_true this
      | ramout rr => exact absurd hk (hnr n rr)
      | nand a b =>
        obtain ⟨hra, hrb⟩ := hrk n hn a b hk
        obtain ⟨hca, hcb⟩ := hcl n hn a b hk
        set st1 : GSt := { st with visited := Function.update st.visited n true } with hst1
        have hdffc1 : ∀ d i, g.kind d = .dff i → st1.visited d = false →
            st1.cached d = last0 d := by
          intro d i hkd hv1
          have hdn : d ≠ n := fun h => by rw [h, hk] at hkd; exact GNodeKind.noConfusion hkd
          have hv0 : st.visited d = false := by
            have : Function.update st.visited n true d = false := hv1
            rwa [Function.update_noteq hdn] at this
          exact hdffc d i hkd hv0
        have hcomb1 : ∀ c, c < g.nodeCount → isComb (g.kind c) = true →
            st1.visited c = true →
            (st1.cached c = DSpec g rank last0 value0 c ∨ rank n ≤ rank c) := by
          intro c hc hic hv1
          by_cases hcn : c = n
          · subst hcn; right; exact Nat.le_refl _
          · have hvc : st.visited c = true := by
              have : Function.update st.visited n true c = true := hv1
              rwa [Function.update_noteq hcn] at this
            rcases hcomb c hc hic hvc with h | h
            · left; exact h
            · right; omega
        obtain ⟨ha1, ha2, ha3, ha4, ha5, ha6, ha7⟩ :=
          ih a st1 (rank n) hca (by omega) (by omega) hlast hvalue hdffc1 hcomb1
        set A := evalDff g fuel false a st1 with hA
        have hlast2 : A.2.last = last0 := ha2.trans hlast
        have hvalue2 : A.2.value = value0 := ha3.trans hvalue
        have hdffc2 : ∀ d i, g.kind d = .dff i → A.2.visited d = false →
            A.2.cached d = last0 d := by
          intro d i hkd hv2
          have hv1 : st1.visited d = false := by
            cases h1 : st1.visited d
            · rfl
            · exact absurd (ha4 d h1) (by rw [hv2]; exact Bool.false_ne_true)
          rw [ha6 d i hkd]
          exact hdffc1 d i hkd hv1
        have hcomb2 : ∀ c, c < g.nodeCount → isComb (g.kind c) = true →
            A.2.visited c = true →
            (A.2.cached c = DSpec g rank last0 value0 c ∨ rank n ≤ rank c) := by
          intro c hc hic hv2
          by_cases hv1 : st1.visited c = true
          · rw [ha5 c hv1]
            exact hcomb1 c hc hic hv1
          · have hv1f : st1.visited c = false := by
              cases h1 : st1.visited c
              · rfl
              · exact absurd h1 hv1
            left
            exact ha7 c hc hic hv2 hv1f
        obtain ⟨hb1, hb2, hb3, hb4, hb5, hb6, hb7⟩ :=
          ih b A.2 (rank n) hcb (by omega) (by omega) hlast2 hvalue2 hdffc2 hcomb2
        set B := evalDff g fuel false b A.2 with hB
        have hvnand : (!(A.1 && B.1)) = DSpec g rank last0 value0 n := by
          rw [ha1, hb1, DSpec_nand g rank last0 value0 n a b hk,
            specDffEval_rank_eq g rank last0 value0 hrk hcl (rank n) a hca (by omega),
            specDffEval_rank_eq g rank last0 value0 hrk hcl (rank n) b hcb (by omega)]
        have hstep : evalDff g (fuel + 1) false n st
            = (!(A.1 && B.1),
               { B.2 with cached := Function.update B.2.cached n (!(A.1 && B.1)) }) := by
          rw [evalDff, if_neg hvis, hk]
        rw [hstep]
        refine ⟨hvnand, ?_, ?_, ?_, ?_, ?_, ?_⟩
        · exact hb2.trans ha2
        · exact hb3.trans ha3
        · intro m hm
          exact hb4 m (ha4 m (hmono1 m hm))
        · intro m hm
          have hmn : m ≠ n := fun h => absurd (h ▸ hm) hvis
          show Function.update B.2.cached n (!(A.1 && B.1)) m = st.cached m
          rw [Function.update_noteq hmn, hb5 m (ha4 m (hmono1 m hm)),
            ha5 m (hmono1 m hm)]
        · intro d i hkd
          have hdn : d ≠ n := fun h => by rw [h, hk] at hkd; exact GNodeKind.noConfusion hkd
          show Function.update B.2.cached n (!(A.1 && B.1)) d = st.cached d
          rw [Function.update_noteq hdn, hb6 d i hkd, ha6 d i hkd]
        · intro c hc hic h1 h2
          by_cases hcn : c = n
          · subst hcn
            show Function.update B.2.cached c (!(A.1 && B.1)) c
                = DSpec g rank last0 value0 c
            rw [Function.update_same]
            exact hvnand
          · show Function.update B.2.cached n (!(A.1 && B.1)) c
                = DSpec g rank last0 value0 c
            rw [Function.update_noteq hcn]
            have hvB : B.2.visited c = true := h1
            have hv1f : st1.visited c = false := by
              show Function.update st.visited n true c = false
              rw [Function.update_noteq hcn]
              exact h2
            cases hvA : A.2.visited c with
            | true =>
              rw [hb5 c hvA]
              exact ha7 c hc hic hvA hv1f
            | false => exact hb7 c hc hic hvB hvA

/-- The new value a root DFF computes on the rising edge: the spec
evaluation of its input network against the pre-commit states. -/
def newVal (g : GGraph) (rank : Nat → Nat) (last0 value0 : Nat → Bool) (d : Nat) : Bool :=
  match g.kind d with
  | .dff i => DSpec g rank last0 value0 i
  | _ => false

theorem newVal_dff (g : GGraph) (rank : Nat → Nat) (last0 value0 : Nat → Bool)
    (d i : Nat) (hk : g.kind d = .dff i) :
    newVal g rank last0 value0 d = DSpec g rank last0 value0 i := by
  unfold newVal
  rw [hk]

theorem clearNonDff_visited_dff (g : GGraph) (s : GSt) (d i : Nat)
    (hk : g.kind d = .dff i) :
    (clearNonDffVisited g s).visited d = s.visited d := by
  show (if d < g.nodeCount then
      match g.kind d with
      | .dff _ => s.visited d
      | _ => false
    else s.visited d) = s.visited d
  by_cases hd : d < g.nodeCount
  · rw [if_pos hd, hk]
  · rw [if_neg hd]

theorem clearNonDff_visited_comb (g : GGraph) (s : GSt) (c : Nat)
    (hc : c < g.nodeCount) (hic : isComb (g.kind c) = true) :
    (clearNonDffVisited g s).visited c = false := by
  show (if c < g.nodeCount then
      match g.kind c with
      | .dff _ => s.visited c
      | _ => false
    else s.visited c) = false
  rw [if_pos hc]
  cases hk : g.kind c with
  | const => rfl
  | nand a b => rfl
  | dff i => rw [hk] at hic; exact absurd hic (by simp [isComb])
  | ramout r => rfl

/-- The invariant maintained between sub-passes of the rising-edge DFF loop:
`last` and `value` hold the pre-commit values throughout, unvisited DFFs
still cache their pre-commit state, combinational nodes are unvisited, and
every already-processed root is visited and caches its new value. -/
def PassInv (g : GGraph) (rank : Nat → Nat) (last0 value0 : Nat → Bool) (m : Nat)
    (st : GSt) : Prop :=
  st.last = last0 ∧ st.value = value0 ∧
  (∀ d i, g.kind d = .dff i → st.visited d = false → st.cached d = last0 d) ∧
  (∀ c, c < g.nodeCount → isComb (g.kind c) = true → st.visited c = false) ∧
  (∀ j, j < m → st.visited (g.dffList j) = true ∧
    st.cached (g.dffList j) = newVal g rank last0 value0 (g.dffList j))

/-- The wellformedness facts about an elaborated RAM-free module that the
rising-edge proof uses: no RAM output nodes; the combinational structure is
ranked (acyclic — combinational cycles are undefined behaviour the language
is expected to avoid, per the spec); all node references and the DFF list
are in bounds; and every DFF-list entry is a DFF node (grci_dff_new appends
exactly the DFF nodes it creates). -/
def WellFormedNoRam (g : GGraph) (rank : Nat → Nat) : Prop :=
  (∀ m rr, g.kind m ≠ .ramout rr) ∧
  (∀ m, m < g.nodeCount → ∀ a b, g.kind m = .nand a b →
    rank a < rank m ∧ rank b < rank m) ∧
  (∀ m, m < g.nodeCount → ∀ a b, g.kind m = .nand a b →
    a < g.nodeCount ∧ b < g.nodeCount) ∧
  (∀ m, m < g.nodeCount → rank m < g.nodeCount) ∧
  (∀ j, j < g.dffCount → g.dffList j < g.nodeCount) ∧
  (∀ j, j < g.dffCount → ∀ i, g.kind (g.dffList j) = .dff i → i < g.nodeCount) ∧
  (∀ j, j < g.dffCount → ∃ i, g.kind (g.dffList j) = .dff i)

/-- One sub-pass of the rising-edge loop advances the invariant: the root's
new cache is the spec evaluation of its input network against the
pre-commit states. -/
theorem rootStep_correct (g : GGraph) (rank : Nat → Nat) (last0 value0 : Nat → Bool)
    (hwf : WellFormedNoRam g rank) (j : Nat) (hj : j < g.dffCount) (st : GSt)
    (hinv : PassInv g rank last0 value0 j st) :
    PassInv g rank last0 value0 (j + 1) (rootStep g j st) := by
  obtain ⟨hnr, hrk, hcl, hrb, hdl, hdi, hdffk⟩ := hwf
  obtain ⟨i, hkd⟩ := hdffk j hj
  obtain ⟨hlast, hvalue, hdffc, hcombuv, hroots⟩ := hinv
  have hd : g.dffList j < g.nodeCount := hdl j hj
  have hi : i < g.nodeCount := hdi j hj i hkd
  set d := g.dffList j with hdd
  set st1 : GSt := { st with visited := Function.update st.visited d false } with hst1
  set st2 : GSt := { st1 with visited := Function.update st1.visited d true } with hst2
  have hv1f : st1.visited d = false := Function.update_same _ _ _
  have hv1 : ¬ st1.visited d = true := by rw [hv1f]; exact Bool.false_ne_true
  have hdffc2 : ∀ d' i', g.kind d' = .dff i' → st2.visited d' = false →
      st2.cached d' = last0 d' := by
    intro d' i' hk' hv'
    by_cases hdn : d' = d
    · have hvt : st2.visited d' = true := by
        rw [hdn]; exact Function.update_same _ _ _
      rw [hvt] at hv'
      exact Bool.noConfusion hv'
    · have hvv : st.visited d' = false := by
        have h1 : st2.visited d' = st1.visited d' := Function.update_noteq hdn _ _
        have h2 : st1.visited d' = st.visited d' := Function.update_noteq hdn _ _
        rw [h1, h2] at hv'
        exact hv'
      exact hdffc d' i' hk' hvv
  have hcomb2 : ∀ c, c < g.nodeCount → isComb (g.kind c) = true →
      st2.visited c = true →
      (st2.cached c = DSpec g rank last0 value0 c ∨ rank i + 1 ≤ rank c) := by
    intro c hc hic hvc
    by_cases hcn : c = d
    · subst hcn
      rw [hkd] at hic
      exact absurd hic (by simp [isComb])
    · exfalso
      have h1 : st2.visited c = st1.visited c := Function.update_noteq hcn _ _
      have h2 : st1.visited c = st.visited c := Function.update_noteq hcn _ _
      rw [h1, h2, hcombuv c hc hic] at hvc
      exact Bool.false_ne_true hvc
  obtain ⟨hp1, hp2, hp3, hp4, hp5, hp6, hp7⟩ :=
    evalDff_correct g rank last0 value0 hnr hrk hcl g.nodeCount i st2 (rank i + 1)
      hi (hrb i hi) (Nat.lt_succ_self _) hlast hvalue hdffc2 hcomb2
  set P := evalDff g g.nodeCount false i st2 with hP
  have hstep : evalDff g (g.nodeCount + 1) true d st1
      = (P.1, { P.2 with cached := Function.update P.2.cached d P.1 }) := by
    rw [evalDff, if_neg hv1, hkd]
    rfl
  have hres : rootStep g j st
      = clearNonDffVisited g (evalDff g (g.nodeCount + 1) true d st1).2 := rfl
  rw [hres, hstep]
  show PassInv g rank last0 value0 (j + 1)
    (clearNonDffVisited g { P.2 with cached := Function.update P.2.cached d P.1 })
  set st4 : GSt := { P.2 with cached := Function.update P.2.cached d P.1 } with hst4
  have hvPd : P.2.visited d = true := hp4 d (Function.update_same _ _ _)
  refine ⟨?_, ?_, ?_, ?_, ?_⟩
  · exact hp2.trans hlast
  · exact hp3.trans hvalue
  · intro d' i' hk' hv'
    have hv4 : st4.visited d' = false := by
      rwa [clearNonDff_visited_dff g st4 d' i' hk'] at hv'
    have hvP : P.2.visited d' = false := hv4
    have hdn : d' ≠ d := by
      intro h
      rw [h, hvPd] at hvP
      exact Bool.noConfusion hvP
    show st4.cached d' = last0 d'
    have h1 : st4.cached d' = P.2.cached d' := Function.update_noteq hdn _ _
    rw [h1, hp6 d' i' hk']
    exact hdffc2 d' i' hk' (by
      cases h2 : st2.visited d'
      · rfl
      · exact absurd (hp4 d' h2) (by rw [hvP]; exact Bool.false_ne_true))
  · intro c hc hic
    exact clearNonDff_visited_comb g st4 c hc hic
  · intro j' hj'
    by_cases hjj : j' = j
    · subst hjj
      obtain ⟨i0, hk0⟩ := hdffk j' hj
      have hi0 : i0 = i := by
        rw [hkd] at hk0
        exact (GNodeKind.dff.injEq _ _).mp hk0.symm
      subst hi0
      constructor
      · rw [clearNonDff_visited_dff g st4 d i0 hkd]
        exact hvPd
      · show st4.cached d = newVal g rank last0 value0 d
        have h1 : st4.cached d = P.1 := Function.update_same _ _ _
        rw [h1, hp1, newVal_dff g rank last0 value0 d i0 hkd]
    · have hj'lt : j' < j := by omega
      obtain ⟨hv'', hc''⟩ := hroots j' hj'lt
      obtain ⟨i'', hk''⟩ := hdffk j' (by omega)
      constructor
      · rw [clearNonDff_visited_dff g st4 _ i'' hk'']
        show P.2.visited (g.dffList j') = true
        by_cases hdn : g.dffList j' = d
        · rw [hdn]; exact hvPd
        · apply hp4
          have h1 : st2.visited (g.dffList j') = st1.visited (g.dffList j') :=
            Function.update_noteq hdn _ _
          have h2 : st1.visited (g.dffList j') = st.visited (g.dffList j') :=
            Function.update_noteq hdn _ _
          rw [h1, h2]
          exact hv''
      · show st4.cached (g.dffList j') = newVal g rank last0 value0 (g.dffList j')
        by_cases hdn : g.dffList j' = d
        · rw [hdn]
          have h1 : st4.cached d = P.1 := Function.update_same _ _ _
          rw [h1, hp1]
          have hk3 : g.kind (g.dffList j') = .dff i := by rw [hdn]; exact hkd
          rw [← hdn, newVal_dff g rank last0 value0 _ i hk3]
        · have h1 : st4.cached (g.dffList j') = P.2.cached (g.dffList j') :=
            Function.update_noteq hdn _ _
          rw [h1, hp6 _ i'' hk'']
          exact hc''

/-- The full rising-edge DFF pass establishes the invariant for every root:
afterwards every DFF-list node caches its spec-evaluated new value. -/
theorem dffPass_inv (g : GGraph) (rank : Nat → Nat) (last0 value0 : Nat → Bool)
    (hwf : WellFormedNoRam g rank) (st : GSt)
    (hinv0 : PassInv g rank last0 value0 0 st) :
    PassInv g rank last0 value0 g.dffCount (dffPass g st) := by
  have aux : ∀ k, k ≤ g.dffCount →
      PassInv g rank last0 value0 k
        ((List.range k).foldl (fun st k => rootStep g k st) st) := by
    intro k
    induction k with
    | zero => intro _; exact hinv0
    | succ k ih =>
      intro hk
      rw [List.range_succ, List.foldl_append, List.foldl_cons, List.foldl_nil]
      exact rootStep_correct g rank last0 value0 hwf k (by omega) _ (ih (by omega))
  exact aux g.dffCount (Nat.le_refl _)

/-- The commit loop truncated at its first `k` iterations. -/
def commitFold (g : GGraph) (st : GSt) (k : Nat) : GSt :=
  (List.range k).foldl
    (fun st k =>
      let d := g.dffList k
      { st with last := Function.update st.last d (st.cached d) }) st

theorem commitFold_spec (g : GGraph) (st : GSt) : ∀ k : Nat,
    (commitFold g st k).cached = st.cached ∧
    (∀ j, j < k → (commitFold g st k).last (g.dffList j) = st.cached (g.dffList j)) := by
  intro k
  induction k with
  | zero =>
    refine ⟨rfl, ?_⟩
    intro j hj
    omega
  | succ k ih =>
    obtain ⟨ihc, ihl⟩ := ih
    have hstep : commitFold g st (k + 1)
        = { commitFold g st k with
            last := Function.update (commitFold g st k).last (g.dffList k)
              ((commitFold g st k).cached (g.dffList k)) } := by
      unfold commitFold
      rw [List.range_succ, List.foldl_append, List.foldl_cons, List.foldl_nil]
    rw [hstep]
    refine ⟨ihc, ?_⟩
    intro j hj
    show Function.update (commitFold g st k).last (g.dffList k)
        ((commitFold g st k).cached (g.dffList k)) (g.dffList j) = st.cached (g.dffList j)
    by_cases hde : g.dffList j = g.dffList k
    · rw [hde, Function.update_same, ihc]
    · rw [Function.update_noteq hde]
      have hjk : j < k := by
        rcases Nat.lt_succ_iff_lt_or_eq.mp hj with h | h
        · exact h
        · exact absurd (congrArg g.dffList h) hde
      exact ihl j hjk

theorem commitDffs_last_eq (g : GGraph) (st : GSt) (j : Nat) (hj : j < g.dffCount) :
    (commitDffs g st).last (g.dffList j) = st.cached (g.dffList j) :=
  (commitFold_spec g st g.dffCount).2 j hj

theorem clearAllVisited_visited (g : GGraph) (st : GSt) (n : Nat) (hn : n < g.nodeCount) :
    (clearAllVisited g st).visited n = false := by
  show (if n < g.nodeCount then false else st.visited n) = false
  rw [if_pos hn]

/-- After the prepare phase every node of the graph is unvisited
(grci.c:2247-2249 clears all flags last). -/
theorem preparePhase_visited (g : GGraph) (md : GModule) (st : GSt) (inp : Nat → Bool)
    (n : Nat) (hn : n < g.nodeCount) :
    (preparePhase g md st inp).visited n = false :=
  clearAllVisited_visited g _ n hn

/-- If the incoming state has each DFF's cache equal to its last state (as
every state left by a previous step does, since the commit loop copies cache
into last), the prepare phase preserves that: the buffer load writes both
fields of a loaded DFF to the same buffer bit, and the other phases touch
neither field. -/
theorem preparePhase_dff_cached (g : GGraph) (md : GModule) (st : GSt) (inp : Nat → Bool)
    (hdffeq : ∀ d i, g.kind d = .dff i → st.cached d = st.last d) :
    ∀ d i, g.kind d = .dff i →
      (preparePhase g md st inp).cached d = (preparePhase g md st inp).last d := by
  have hpub := publishInputs_novalue md st inp
  have hpc : (publishInputs md st inp).cached = st.cached :=
    congrArg (fun t => t.2.1) hpub
  have hpl : (publishInputs md st inp).last = st.last :=
    congrArg (fun t => t.2.2.1) hpub
  intro d i hk
  show (loadSubStates g md (publishInputs md st inp)).cached d
      = (loadSubStates g md (publishInputs md st inp)).last d
  unfold loadSubStates
  refine foldl_inv_mem _
    (fun b : GSt => ∀ d i, g.kind d = .dff i → b.cached d = b.last d)
    _ ?_ _ ?_ d i hk
  · intro b a ha hb
    by_cases hn : md.partNamed a = true
    · by_cases hr : md.partIsRam a = true
      · simp only [hn, hr, if_true]
        split
        · exact hb
        · exact hb
      · simp only [hn, hr, if_true, Bool.false_eq_true, if_false]
        refine foldl_inv_mem _
          (fun c : GSt => ∀ d i, g.kind d = .dff i → c.cached d = c.last d) _ ?_ _ hb
        intro c j hj hc
        intro d' i' hk'
        show Function.update c.cached (g.dffList (md.dffOff a + j)) (c.sub a j) d'
            = Function.update c.last (g.dffList (md.dffOff a + j)) (c.sub a j) d'
        by_cases hx : d' = g.dffList (md.dffOff a + j)
        · rw [hx, Function.update_same, Function.update_same]
        · rw [Function.update_noteq hx, Function.update_noteq hx]
          exact hc d' i' hk'
    · simp only [hn, Bool.false_eq_true, if_false]
      exact hb
  · intro d' i' hk'
    rw [hpc, hpl]
    exact hdffeq d' i' hk'

/-- C1 (amended): in a module with no Ram64K part (claim C1 as stated is
false for Ram64K, see the counterexample), on a `grci_step_module` call
whose new clock level is high, each DFF's new `last_state` equals the
combinational evaluation (`specDffEval`, the claim-side semantics: constants
contribute their current value, every DFF encountered contributes its
pre-commit `last_state`, NAND combines its children) of that DFF's input
network against the pre-pass states.  The structural hypotheses
(`WellFormedNoRam`) hold of every elaborated RAM-free module: ranks witness
the absence of combinational cycles, node references and the DFF list are
in bounds, and DFF-list entries are DFF nodes; `hdffeq` holds of every state
a previous step leaves behind (the commit loop makes cache and last equal)
and of the freshly instantiated state (both zero). -/
theorem C1_amended_rising_edge_dff_semantics
    (g : GGraph) (md : GModule) (st : GSt) (inp : Nat → Bool) (rank : Nat → Nat)
    (hwf : WellFormedNoRam g rank)
    (hdffeq : ∀ d i, g.kind d = .dff i → st.cached d = st.last d)
    (hhigh : (preparePhase g md st inp).value g.clock = true)
    (j i : Nat) (hj : j < g.dffCount) (hk : g.kind (g.dffList j) = .dff i) :
    (stepModule g md st inp).2.2.last (g.dffList j)
      = specDffEval g (preparePhase g md st inp).last
          (preparePhase g md st inp).value g.nodeCount i := by
  obtain ⟨hnr, hrk, hcl, hrb, hdl, hdi, hdffk⟩ := id hwf
  have hinv0 : PassInv g rank (preparePhase g md st inp).last
      (preparePhase g md st inp).value 0 (preparePhase g md st inp) := by
    refine ⟨rfl, rfl, ?_, ?_, ?_⟩
    · intro d i0 hkd _
      exact preparePhase_dff_cached g md st inp hdffeq d i0 hkd
    · intro c hc _
      exact preparePhase_visited g md st inp c hc
    · intro j0 hj0
      omega
  obtain ⟨hl, hv, hdc, hcu, hroots⟩ := dffPass_inv g rank _ _ hwf _ hinv0
  have hsb : stepBranch g md st inp
      = commitDffs g (dffPass g (preparePhase g md st inp)) := by
    unfold stepBranch
    rw [if_pos hhigh]
  have hslast : (snapshotSubStates g md (evalOutputs g md (stepBranch g md st inp)).2).last
      = (evalOutputs g md (stepBranch g md st inp)).2.last :=
    congrArg (fun t => t.2.2.2.1)
      (snapshotSubStates_nosub g md (evalOutputs g md (stepBranch g md st inp)).2)
  have helast : (evalOutputs g md (stepBranch g md st inp)).2.last
      = (stepBranch g md st inp).last :=
    congrArg (fun t => t.1) (evalOutputs_lvs g md (stepBranch g md st inp))
  have h1 : (stepModule g md st inp).2.2.last (g.dffList j)
      = (stepBranch g md st inp).last (g.dffList j) := by
    rw [stepModule_def]
    show (snapshotSubStates g md (evalOutputs g md (stepBranch g md st inp)).2).last
        (g.dffList j) = (stepBranch g md st inp).last (g.dffList j)
    rw [hslast, helast]
  rw [h1, hsb, commitDffs_last_eq g _ j hj, (hroots j hj).2,
    newVal_dff g rank _ _ _ i hk]
  exact (specDffEval_rank_eq g rank _ _ hrk hcl g.nodeCount i
    (hdi j hj i hk) (hrb i (hdi j hj i hk))).symm

/-- The two-DFF chain satisfies the structural hypotheses with the constant
rank function (it has no NAND node at all). -/
theorem wfChain : WellFormedNoRam cgChain (fun _ => 0) := by
  refine ⟨?_, ?_, ?_, ?_, ?_, ?_, ?_⟩
  · intro m rr
    show (if m = 3 then GNodeKind.dff 1 else if m = 4 then GNodeKind.dff 3
      else GNodeKind.const) ≠ GNodeKind.ramout rr
    split
    · intro h; exact GNodeKind.noConfusion h
    · split
      · intro h; exact GNodeKind.noConfusion h
      · intro h; exact GNodeKind.noConfusion h
  · intro m _ a b hab
    exfalso
    revert hab
    show (if m = 3 then GNodeKind.dff 1 else if m = 4 then GNodeKind.dff 3
      else GNodeKind.const) = GNodeKind.nand a b → False
    split
    · intro h; exact GNodeKind.noConfusion h
    · split
      · intro h; exact GNodeKind.noConfusion h
      · intro h; exact GNodeKind.noConfusion h
  · intro m _ a b hab
    exfalso
    revert hab
    show (if m = 3 then GNodeKind.dff 1 else if m = 4 then GNodeKind.dff 3
      else GNodeKind.const) = GNodeKind.nand a b → False
    split
    · intro h; exact GNodeKind.noConfusion h
    · split
      · intro h; exact GNodeKind.noConfusion h
      · intro h; exact GNodeKind.noConfusion h
  · intro m _
    show 0 < 5
    omega
  · intro j hj
    have h2 : j < 2 := hj
    show j + 3 < 5
    omega
  · intro j hj i hki
    have h2 : j < 2 := hj
    show i < 5
    interval_cases j
    · have h : GNodeKind.dff 1 = GNodeKind.dff i := hki
      injection h with h
      omega
    · have h : GNodeKind.dff 3 = GNodeKind.dff i := hki
      injection h with h
      omega
  · intro j hj
    have h2 : j < 2 := hj
    interval_cases j
    · exact ⟨1, rfl⟩
    · exact ⟨3, rfl⟩

set_option maxRecDepth 20000 in
/-- Witness for the amended C1 on the two-DFF chain at a rising edge: every
hypothesis holds concretely and the first DFF's new state is the spec
evaluation of its input (the const-1 node). -/
theorem C1_amended_witness :
    WellFormedNoRam cgChain (fun _ => 0) ∧
    (∀ d i, cgChain.kind d = .dff i → stChain.cached d = stChain.last d) ∧
    (preparePhase cgChain wMd stChain (fun _ => false)).value cgChain.clock = true ∧
    0 < cgChain.dffCount ∧ cgChain.kind (cgChain.dffList 0) = .dff 1 ∧
    (stepModule cgChain wMd stChain (fun _ => false)).2.2.last (cgChain.dffList 0)
      = specDffEval cgChain (preparePhase cgChain wMd stChain (fun _ => false)).last
          (preparePhase cgChain wMd stChain (fun _ => false)).value cgChain.nodeCount 1 :=
  ⟨wfChain, fun _ _ _ => rfl, rfl, by decide, rfl,
    C1_amended_rising_edge_dff_semantics cgChain wMd stChain (fun _ => false) (fun _ => 0)
      wfChain (fun _ _ _ => rfl) rfl 0 1 (by decide) rfl⟩

/-! ### The hard limits of the compiler (claim C7) -/

/-- GRCI_MAX_PARTS (grci.c:12). -/
def GRCI_MAX_PARTS : Nat := 64

/-- GRCI_MAX_WIRES (grci.c:13). -/
def GRCI_MAX_WIRES : Nat := 32

/-- A body item of a module as `grci_compile_part_list` classifies it: a
part instantiation (next-next token is `(` or `:`) or a wire statement. -/
inductive BodyItem where
  | part : BodyItem
  | wire : BodyItem
deriving DecidableEq

/-- The counting and limit-checking skeleton of `grci_compile_part_list`
(grci.c:1094-1177): each loop iteration first runs the
`grci_ensure(symbols->parts.count < GRCI_MAX_PARTS, ...)` at line 1103
(returning a compilation error, modelled `none`, when it fails); a part item
then increments `symbols->parts.count` (line 1109), a wire item increments
`symbols->wires.count` (line 1155) — the function contains no check of
`wires.count` against GRCI_MAX_WIRES.  `some (p, w)` is the pair of final
counts on success. -/
def compilePartListCounts : List BodyItem → Nat → Nat → Option (Nat × Nat)
  | [], p, w => some (p, w)
  | it :: rest, p, w =>
    if p < GRCI_MAX_PARTS then
      match it with
      | .part => compilePartListCounts rest (p + 1) w
      | .wire => compilePartListCounts rest p (w + 1)
    else none

set_option maxRecDepth 4000 in
/-- C7 (code bug): of the five hard limits, the wire limit is not enforced
at all — a module body consisting of GRCI_MAX_WIRES + 1 = 33 wire
statements runs to completion with wire count 33 and no compilation error
(in the C this writes past the `wires.inputs[GRCI_MAX_WIRES]` arrays of the
symbol table), while the parts limit does produce an error on the 65th body
item.  (The module-definition limit is likewise unenforced:
`grci_module_desc_list_append` at grci.c:653-657 guards the entries array
only with `assert`, which is no compilation error and vanishes under
NDEBUG.) -/
theorem C7_wire_limit_not_enforced :
    compilePartListCounts (List.replicate (GRCI_MAX_WIRES + 1) BodyItem.wire) 0 0
      = some (0, GRCI_MAX_WIRES + 1) ∧
    compilePartListCounts (List.replicate (GRCI_MAX_PARTS + 1) BodyItem.part) 0 0
      = none :=
  ⟨rfl, rfl⟩

/-! ### Module-description lookup (claim C8) -/

/-- The fields of `struct grci_module_desc` (grci.c:604-622) that identify a
description for name resolution; the elaboration payload (widths, outputs,
connections) is not needed for the lookup claims. -/
structure grci_module_desc where
  name : String
  input_param_count : Nat
  output_param_count : Nat
  is_nand : Bool
  is_dff : Bool
  is_ram64K : Bool
deriving DecidableEq

/-- `nand_decl` (grci.c:801-824). -/
def nand_decl : grci_module_desc :=
  { name := "Nand", input_param_count := 2, output_param_count := 1,
    is_nand := true, is_dff := false, is_ram64K := false }

/-- `dff_decl` (grci.c:826-846). -/
def dff_decl : grci_module_desc :=
  { name := "Dff", input_param_count := 1, output_param_count := 1,
    is_nand := false, is_dff := true, is_ram64K := false }

/-- `ram64K_decl` (grci.c:849-872). -/
def ram64K_decl : grci_module_desc :=
  { name := "Ram64K", input_param_count := 3, output_param_count := 1,
    is_nand := false, is_dff := false, is_ram64K := true }

/-- `grci_module_desc_list_get` (grci.c:659-668): scan the list from index 0
and return the first entry whose name matches, `none` for no match (NULL in
the C). -/
def grci_module_desc_list_get : List grci_module_desc → String → Option grci_module_desc
  | [], _ => none
  | d :: rest, s =>
    if d.name = s then some d else grci_module_desc_list_get rest s

/-- The module-description list as `grci_compiler_init` (grci.c:874-887)
leaves it: the three builtins appended in order before anything else. -/
def compilerInitDefs : List grci_module_desc := [nand_decl, dff_decl, ram64K_decl]

/-- C8: in every compiler context — the three builtins registered by
`grci_compiler_init` followed by an arbitrary list of user module
descriptions (grci.c:1568, the single other append site, appends each
compiled module at the end; entries are never removed or reordered) — a
part reference to "Nand", "Dff" or "Ram64K" resolves to the corresponding
builtin primitive: `grci_module_desc_list_get` returns the first match and
the builtins occupy the first three slots, so user modules reusing those
names are shadowed. -/
theorem C8_builtin_names_resolve (userDefs : List grci_module_desc) :
    grci_module_desc_list_get (compilerInitDefs ++ userDefs) "Nand" = some nand_decl ∧
    grci_module_desc_list_get (compilerInitDefs ++ userDefs) "Dff" = some dff_decl ∧
    grci_module_desc_list_get (compilerInitDefs ++ userDefs) "Ram64K" = some ram64K_decl :=
  ⟨rfl, rfl, rfl⟩

/-! ### The error buffer and submodule lookup (claims C9 and C10) -/

/-- The error phases of `enum grci_err_type` (grci.c:46-51), a compilation
error carrying its line number. -/
inductive GrciErrType where
  | comp : Nat → GrciErrType
  | sim : GrciErrType
  | mem : GrciErrType
  | intern : GrciErrType
deriving DecidableEq

/-- The phase text `grci_err_prefix` writes at the start of the buffer
(grci.c:54-72). -/
def grci_err_phase_msg : GrciErrType → String
  | .comp line => "GRCI compilation error [near line " ++ toString line ++ "]: "
  | .sim => "GRCI simulation error: "
  | .mem => "GRCI memory allocation error: "
  | .intern => "GRCI internal error: "

/-- The buffer update a failed `grci_ensure`/`grci_ensure_retnull` performs
(grci.c:74-92): the phase text and the message are written only when the
buffer is empty (`strlen(grci_err_buf) == 0`, modelled `buf = ""`);
otherwise the buffer keeps its earlier contents. -/
def grci_ensure_fail_buf (buf : String) (ty : GrciErrType) (msg : String) : String :=
  if buf = "" then grci_err_phase_msg ty ++ msg else buf

/-- The loop of `grci_submodule` (grci.c:2194-2200) over the part-name
table: parts whose name pointer is NULL (unnamed in the source, modelled
`none`) are skipped; the first part whose name matches is returned. -/
def findSubmoduleIdx : List (Option String) → String → Option Nat
  | [], _ => none
  | none :: rest, s => (findSubmoduleIdx rest s).map (fun k => k + 1)
  | some n :: rest, s =>
    if n = s then some 0 else (findSubmoduleIdx rest s).map (fun k => k + 1)

/-- `grci_submodule` (grci.c:2193-2204): return the matched part's
submodule (its index here; the C returns `&submodules[i]`), or NULL
(`none`) after the failing `grci_ensure_retnull(false, GRCI_ERR_SIM, ...)`,
which writes the simulation-error message only when the buffer was empty.
The result is paired with the error buffer after the call. -/
def grci_submodule_model (partNames : List (Option String)) (s : String)
    (buf : String) : Option Nat × String :=
  match findSubmoduleIdx partNames s with
  | some i => (some i, buf)
  | none => (none, grci_ensure_fail_buf buf .sim
      ("submodule " ++ s ++ " does not exist"))

theorem findSubmoduleIdx_spec (s : String) :
    ∀ (partNames : List (Option String)) (i : Nat),
      findSubmoduleIdx partNames s = some i → partNames.get? i = some (some s) := by
  intro pn
  induction pn with
  | nil =>
    intro i h
    exact Option.noConfusion h
  | cons a rest ih =>
    intro i h
    cases a with
    | none =>
      have h' : (findSubmoduleIdx rest s).map (fun k => k + 1) = some i := h
      cases hf : findSubmoduleIdx rest s with
      | none => rw [hf] at h'; exact Option.noConfusion h'
      | some k =>
        rw [hf] at h'
        have hk : k + 1 = i := Option.some.inj h'
        rw [← hk]
        exact ih k hf
    | some n =>
      have h' : (if n = s then some 0
          else (findSubmoduleIdx rest s).map (fun k => k + 1)) = some i := h
      by_cases hn : n = s
      · rw [if_pos hn] at h'
        have h0 : (0 : Nat) = i := Option.some.inj h'
        rw [← h0]
        show some (some n) = some (some s)
        rw [hn]
      · rw [if_neg hn] at h'
        cases hf : findSubmoduleIdx rest s with
        | none => rw [hf] at h'; exact Option.noConfusion h'
        | some k =>
          rw [hf] at h'
          have hk : k + 1 = i := Option.some.inj h'
          rw [← hk]
          exact ih k hf

set_option maxRecDepth 10000 in
/-- Counterexample to C9 as stated: a failed submodule lookup performed
while the error buffer already holds an earlier (here: compilation) message
returns NULL but records NO simulation error — `grci_ensure_retnull` leaves
the buffer untouched when it is non-empty, so `grci_err()` does not return
a message of the simulation phase. -/
theorem C9_counterexample :
    (grci_submodule_model [some "a"] "b"
      "GRCI compilation error [near line 1]: x").1 = none ∧
    (grci_submodule_model [some "a"] "b"
      "GRCI compilation error [near line 1]: x").2
      = "GRCI compilation error [near line 1]: x" ∧
    (grci_submodule_model [some "a"] "b"
      "GRCI compilation error [near line 1]: x").2
      ≠ "GRCI simulation error: " ++ ("submodule " ++ "b" ++ " does not exist") :=
  ⟨rfl, rfl, by decide⟩

/-- C9 (amended): `grci_submodule` with a name matching no named part
always returns NULL, and any part it does return is a named part bearing
the requested name (unnamed parts are skipped, so they are never returned);
the simulation-error message is recorded for `grci_err()` only when the
error buffer was empty at the call — with an earlier message present the
buffer is left unchanged (first error wins). -/
theorem C9_amended_submodule_lookup (partNames : List (Option String))
    (s buf : String) :
    (∀ i, (grci_submodule_model partNames s buf).1 = some i →
      partNames.get? i = some (some s)) ∧
    (findSubmoduleIdx partNames s = none →
      (grci_submodule_model partNames s buf).1 = none ∧
      (buf = "" → (grci_submodule_model partNames s buf).2
        = "GRCI simulation error: " ++ ("submodule " ++ s ++ " does not exist")) ∧
      (buf ≠ "" → (grci_submodule_model partNames s buf).2 = buf)) := by
  have hfst : (grci_submodule_model partNames s buf).1
      = findSubmoduleIdx partNames s := by
    unfold grci_submodule_model
    cases findSubmoduleIdx partNames s with
    | none => rfl
    | some i => rfl
  constructor
  · intro i hi
    rw [hfst] at hi
    exact findSubmoduleIdx_spec s partNames i hi
  · intro hn
    refine ⟨by rw [hfst]; exact hn, ?_, ?_⟩
    · intro hb
      unfold grci_submodule_model
      rw [hn]
      show grci_ensure_fail_buf buf .sim ("submodule " ++ s ++ " does not exist") = _
      unfold grci_ensure_fail_buf
      rw [if_pos hb]
      rfl
    · intro hb
      unfold grci_submodule_model
      rw [hn]
      show grci_ensure_fail_buf buf .sim ("submodule " ++ s ++ " does not exist") = buf
      unfold grci_ensure_fail_buf
      rw [if_neg hb]

/-- Witness for the amended C9: on a module with one named part "a" and one
unnamed part, looking up "b" with an empty buffer returns NULL and records
the simulation error. -/
theorem C9_amended_witness :
    findSubmoduleIdx [some "a", none] "b" = none ∧
    (grci_submodule_model [some "a", none] "b" "").1 = none ∧
    (grci_submodule_model [some "a", none] "b" "").2
      = "GRCI simulation error: " ++ ("submodule " ++ "b" ++ " does not exist") :=
  ⟨rfl, ((C9_amended_submodule_lookup [some "a", none] "b" "").2 rfl).1,
    ((C9_amended_submodule_lookup [some "a", none] "b" "").2 rfl).2.1 rfl⟩

/-- An API call as the error buffer sees it: a check that passes, a check
that fails attempting to write `msg` (the phase text plus the formatted
message, as `grci_ensure`/`grci_ensure_retnull` compose it), or a
`grci_init` call, which resets the buffer (grci.c:2095). -/
inductive ApiEvent where
  | ok : ApiEvent
  | fail : String → ApiEvent
  | init : ApiEvent
deriving DecidableEq

/-- The buffer transition of one event: every failing check writes its
message only when the buffer is empty (the guard in grci.c:77 and 87, the
only writes to `grci_err_buf` besides `grci_init`). -/
def errBufStep (buf : String) : ApiEvent → String
  | .ok => buf
  | .fail msg => if buf = "" then msg else buf
  | .init => ""

/-- The buffer contents `grci_err()` returns after a sequence of API calls
starting from the empty buffer. -/
def errBufAfter (evs : List ApiEvent) : String :=
  evs.foldl errBufStep ""

/-- The message of the earliest failing check of a call sequence. -/
def firstFailMsg : List ApiEvent → Option String
  | [] => none
  | ApiEvent.fail m :: _ => some m
  | _ :: rest => firstFailMsg rest

theorem errBuf_foldl_fix (b : String) (hb : b ≠ "") :
    ∀ evs : List ApiEvent, ApiEvent.init ∉ evs →
      List.foldl errBufStep b evs = b := by
  intro evs
  induction evs with
  | nil => intro _; rfl
  | cons e rest ih =>
    intro hmem
    rw [List.foldl_cons]
    have he : errBufStep b e = b := by
      cases e with
      | ok => rfl
      | fail m =>
        show (if b = "" then m else b) = b
        rw [if_neg hb]
      | init => exact absurd (List.mem_cons_self _ _) hmem
    rw [he]
    exact ih (fun h => hmem (List.mem_cons_of_mem _ h))

theorem errBuf_first_fail :
    ∀ (evs : List ApiEvent) (m : String), ApiEvent.init ∉ evs →
      (∀ m', ApiEvent.fail m' ∈ evs → m' ≠ "") →
      firstFailMsg evs = some m → errBufAfter evs = m := by
  intro evs
  induction evs with
  | nil =>
    intro m _ _ h
    exact Option.noConfusion h
  | cons e rest ih =>
    intro m hinit hne hff
    cases e with
    | ok =>
      show List.foldl errBufStep "" rest = m
      exact ih m (fun h => hinit (List.mem_cons_of_mem _ h))
        (fun m' hm' => hne m' (List.mem_cons_of_mem _ hm')) hff
    | fail m0 =>
      have hm : m0 = m := Option.some.inj hff
      have h1 : errBufAfter (ApiEvent.fail m0 :: rest)
          = List.foldl errBufStep m0 rest := by
        show List.foldl errBufStep (if ("" : String) = "" then m0 else "") rest = _
        rw [if_pos rfl]
      rw [h1, errBuf_foldl_fix m0 (hne m0 (List.mem_cons_self _ _)) rest
        (fun h => hinit (List.mem_cons_of_mem _ h))]
      exact hm
    | init => exact absurd (List.mem_cons_self _ _) hinit

/-- C10: the global error buffer records only the first failure since
`grci_init`.  For a call sequence with no `grci_init` whose failure
messages are non-empty (every grci message starts with a non-empty phase
text), `grci_err()` returns the message of the earliest failing check; a
`grci_init` resets the buffer so only the calls after it matter; and no
event other than `grci_init` ever changes a non-empty buffer. -/
theorem C10_first_error_wins (evs : List ApiEvent) :
    (ApiEvent.init ∉ evs → (∀ m', ApiEvent.fail m' ∈ evs → m' ≠ "") →
      ∀ m, firstFailMsg evs = some m → errBufAfter evs = m) ∧
    (∀ pre post : List ApiEvent,
      errBufAfter (pre ++ ApiEvent.init :: post) = errBufAfter post) ∧
    (∀ (b : String) (e : ApiEvent), e ≠ ApiEvent.init → b ≠ "" →
      errBufStep b e = b) := by
  refine ⟨?_, ?_, ?_⟩
  · intro hinit hne m hff
    exact errBuf_first_fail evs m hinit hne hff
  · intro pre post
    show List.foldl errBufStep "" (pre ++ ApiEvent.init :: post) = _
    rw [List.foldl_append, List.foldl_cons]
    rfl
  · intro b e hei hb
    cases e with
    | ok => rfl
    | fail m =>
      show (if b = "" then m else b) = b
      rw [if_neg hb]
    | init => exact absurd rfl hei

/-- Witness for C10: two consecutive failing checks — the buffer ends with
the first message, and a further failure on the non-empty buffer changes
nothing. -/
theorem C10_witness :
    ApiEvent.init ∉ [ApiEvent.fail "E1", ApiEvent.fail "E2"] ∧
    firstFailMsg [ApiEvent.fail "E1", ApiEvent.fail "E2"] = some "E1" ∧
    errBufAfter [ApiEvent.fail "E1", ApiEvent.fail "E2"] = "E1" ∧
    errBufStep "E1" (ApiEvent.fail "E2") = "E1" := by
  refine ⟨by decide, rfl, ?_, ?_⟩
  · exact (C10_first_error_wins [ApiEvent.fail "E1", ApiEvent.fail "E2"]).1
      (by decide)
      (by
        intro m' hm'
        simp only [List.mem_cons, List.not_mem_nil, or_false,
          ApiEvent.fail.injEq] at hm'
        rcases hm' with h | h <;> subst h <;> decide)
      "E1" rfl
  · exact (C10_first_error_wins []).2.2 "E1" (ApiEvent.fail "E2")
      (by decide) (by decide)

end Grci
